import Mathlib

/-!
# Verification of the pcb2blender exporter core

Shallow embedding of `src/pcb2blender_exporter/export.py`:
the annotation parser `get_boarddefs`, the name sanitizer `sanitized`,
the whole-board bounds computation of `export_pcb3d` (lines 44-49), and
the archive record serialization (`struct.pack`-based entries written by
`export_pcb3d`, lines 52-75).

Modelling conventions:
* Python strings are lists of characters (`Str := List Char`).
* Physical millimeter quantities are exact rationals (`ℚ`); the parser's
  arithmetic (subtraction of positions) is exact in the source up to
  floating-point rounding, which is not the subject of any claim here.
* Python dicts are insertion-ordered association lists with unique keys;
  `setdefault` appends a missing key at the end, `pop` removes a key,
  assignment `d[k] = v` replaces in place or appends.
* `float(...)` applied to the z-offset field is modelled by `pyFloat`,
  which parses a finite decimal literal (optional sign, digits, optional
  fraction, optional exponent) into an exact rational and rejects
  everything else; special spellings (inf/nan, whitespace) are out of
  scope, and an underscore can never reach it because the field is the
  result of splitting on underscores.
* `struct.pack("!f", x)` stores an IEEE-754 binary32 value; record values
  handed to the archive builder are modelled as binary32 bit patterns
  (naturals `< 2^32`), and packing emits their four bytes big-endian.
-/

namespace Pcb2Blender

/-- Python strings, modelled as lists of characters. -/
abbrev Str := List Char

/-- A 2-D position in millimeters, as produced by `ToMM(text_obj.GetPosition())`. -/
abbrev Pos := ℚ × ℚ

/-- A word character in the sense of the regex `\w` (ASCII model):
letter, digit or underscore. -/
def isWordChar (c : Char) : Bool := c.isAlpha || c.isDigit || c == '_'

/-- Worker for `sanitized`: the boolean records whether we are currently
inside a run of non-word characters (for which a single `'_'` has already
been emitted). -/
def sanGo : Str → Bool → Str
  | [], _ => []
  | c :: cs, inRun =>
    if isWordChar c then c :: sanGo cs false
    else if inRun then sanGo cs true
    else '_' :: sanGo cs true

/-- `sanitized(name)` = `re.sub("[\W]+", "_", name)` (export.py line 170-171):
every maximal run of non-word characters is replaced by a single underscore. -/
def sanitized (name : Str) : Str := sanGo name false

/-- Python `str.startswith(pre)`. -/
def startswith : Str → Str → Bool
  | _, [] => true
  | [], _ :: _ => false
  | c :: s, p :: ps => c == p && startswith s ps

/-- Python `s.split("_")` (split on every single underscore, keeping
empty pieces, `"".split("_") == [""]`). -/
def splitUnd : Str → List Str
  | [] => [[]]
  | c :: cs =>
    if c = '_' then [] :: splitUnd cs
    else
      match splitUnd cs with
      | [] => [[c]]
      | p :: ps => (c :: p) :: ps

/-! ## Python dicts as insertion-ordered association lists -/

/-- Dictionary key lookup (`d.get(k)` / `k in d`). -/
def dlookup {β : Type} : List (Str × β) → Str → Option β
  | [], _ => none
  | e :: d, k => if e.1 = k then some e.2 else dlookup d k

/-- `list(d.keys())`, in insertion order. -/
def dkeys {β : Type} (d : List (Str × β)) : List Str := d.map Prod.fst

/-- `list(d.values())`, in insertion order. -/
def dvalues {β : Type} (d : List (Str × β)) : List β := d.map Prod.snd

/-- `d.setdefault(k, v)`: keep an existing entry, otherwise append `(k, v)`. -/
def dsetdefault {β : Type} (d : List (Str × β)) (k : Str) (v : β) : List (Str × β) :=
  if (dlookup d k).isSome then d else d ++ [(k, v)]

/-- `d.pop(k)`: remove the entry with key `k` (the source only calls it on
keys it has just found present). -/
def dpop {β : Type} : List (Str × β) → Str → List (Str × β)
  | [], _ => []
  | e :: d, k => if e.1 = k then d else e :: dpop d k

/-- `d[k] = v`: replace the value at `k` in place, or append a new entry. -/
def dinsert {β : Type} : List (Str × β) → Str → β → List (Str × β)
  | [], k, v => [(k, v)]
  | e :: d, k, v => if e.1 = k then (k, v) :: d else e :: dinsert d k v

/-! ## Data model (export.py lines 24-33) -/

/-- `StackedBoard` dataclass. `α` is the numeric field type: exact
rationals in the parser, binary32 bit patterns in the archive builder. -/
structure StackedBoard (α : Type) where
  name : Str
  offset : α × α × α
deriving DecidableEq, Repr

/-- `BoardDef` dataclass. -/
structure BoardDef (α : Type) where
  name : Str
  bounds : α × α × α × α
  stacked_boards : List (StackedBoard α)
deriving DecidableEq, Repr

/-! ## The annotation parser `get_boarddefs` (export.py lines 77-141) -/

/-- The reserved prefix `"PCB3D_"`. -/
def prefixPCB3D : Str := ['P', 'C', 'B', '3', 'D', '_']

/-- The top-left marker prefix `"PCB3D_TL_"`. -/
def prefixTL : Str := ['P', 'C', 'B', '3', 'D', '_', 'T', 'L', '_']

/-- The bottom-right marker prefix `"PCB3D_BR_"`. -/
def prefixBR : Str := ['P', 'C', 'B', '3', 'D', '_', 'B', 'R', '_']

/-- The stack marker prefix `"PCB3D_STACK_"`. -/
def prefixSTACK : Str := ['P', 'C', 'B', '3', 'D', '_', 'S', 'T', 'A', 'C', 'K', '_']

/-- The stack keyword `"ONTO"`. -/
def kwONTO : Str := ['O', 'N', 'T', 'O']

/-- The reserved panel-element identifier `"FPNL"`. -/
def FPNL : Str := ['F', 'P', 'N', 'L']

/-- State of the classification pass: the three buckets and the list of
texts rejected with the reserved prefix but no recognized secondary prefix. -/
structure ScanSt where
  tls : List (Str × Pos)
  brs : List (Str × Pos)
  stks : List (Str × Pos)
  ignored : List Str
deriving DecidableEq, Repr

/-- One iteration of the classification loop (export.py lines 84-100),
for one text drawing `(text, position)`. -/
def scanStep (st : ScanSt) (a : Str × Pos) : ScanSt :=
  if startswith a.1 prefixPCB3D then
    if startswith a.1 prefixTL then { st with tls := dsetdefault st.tls a.1 a.2 }
    else if startswith a.1 prefixBR then { st with brs := dsetdefault st.brs a.1 a.2 }
    else if startswith a.1 prefixSTACK then { st with stks := dsetdefault st.stks a.1 a.2 }
    else { st with ignored := st.ignored ++ [a.1] }
  else st

/-- One iteration of the board-resolution loop (export.py lines 102-113).
The state is `(boarddefs, tls, brs)`; the loop iterates over a snapshot of
the `tls` keys, so `tlStr` is always still present in `tls` when visited
(the `none` fallback for its lookup is unreachable in context). -/
def boardStep (st : List (Str × BoardDef ℚ) × List (Str × Pos) × List (Str × Pos))
    (tlStr : Str) : List (Str × BoardDef ℚ) × List (Str × Pos) × List (Str × Pos) :=
  let name := tlStr.drop 9
  let brStr := prefixBR ++ name
  match dlookup st.2.2 brStr with
  | none => st
  | some brPos =>
    match dlookup st.2.1 tlStr with
    | none => st
    | some tlPos =>
      let bd : BoardDef ℚ :=
        ⟨sanitized name, (tlPos.1, tlPos.2, brPos.1 - tlPos.1, brPos.2 - tlPos.2), []⟩
      (dinsert st.1 bd.name bd, dpop st.2.1 tlStr, dpop st.2.2 brStr)

/-! ### `float(...)` on the z-offset field -/

/-- Numeric value of a decimal digit character. -/
def digitVal (c : Char) : ℕ := c.toNat - Char.toNat '0'

/-- Value of a digit string. -/
def natOfDigits (l : Str) : ℕ := l.foldl (fun a c => 10 * a + digitVal c) 0

/-- Strip an optional sign, returning the sign as a rational. -/
def pySign : Str → ℚ × Str
  | '-' :: r => (-1, r)
  | '+' :: r => (1, r)
  | s => (1, s)

/-- Strip an optional sign, returning the sign as an integer. -/
def pySignZ : Str → ℤ × Str
  | '-' :: r => (-1, r)
  | '+' :: r => (1, r)
  | s => (1, s)

/-- Parse the optional exponent part (`e`/`E`, optional sign, digits);
`some 0` on the empty string, `none` on anything malformed. -/
def pyExpo : Str → Option ℤ
  | [] => some 0
  | c :: r =>
    if c = 'e' ∨ c = 'E' then
      let sr := pySignZ r
      let ds := sr.2.takeWhile Char.isDigit
      if ds = [] ∨ sr.2.dropWhile Char.isDigit ≠ [] then none
      else some (sr.1 * (natOfDigits ds : ℤ))
    else none

/-- Model of Python `float(s)` on finite decimal literals: optional sign,
integer digits, optional fraction, optional exponent; `none` when `s` is
not such a literal (the `ValueError` branch of export.py lines 116-120). -/
def pyFloat (s : Str) : Option ℚ :=
  let ss := pySign s
  let ip := ss.2.takeWhile Char.isDigit
  let s2 := ss.2.dropWhile Char.isDigit
  let fs : Str × Str :=
    match s2 with
    | '.' :: r => (r.takeWhile Char.isDigit, r.dropWhile Char.isDigit)
    | r => ([], r)
  if ip = [] ∧ fs.1 = [] then none
  else
    match pyExpo fs.2 with
    | none => none
    | some e =>
      some (ss.1 * (((natOfDigits ip : ℚ) + (natOfDigits fs.1 : ℚ) / (10 : ℚ) ^ fs.1.length)
        * (10 : ℚ) ^ e))

/-- One iteration of the stack-resolution loop (export.py lines 115-137).
The state is `(boarddefs, stacks)`; the loop iterates over a snapshot of
the `stacks` keys, so `stackStr` is present when visited. -/
def stackStep (st : List (Str × BoardDef ℚ) × List (Str × Pos)) (stackStr : Str) :
    List (Str × BoardDef ℚ) × List (Str × Pos) :=
  match splitUnd (stackStr.drop 12) with
  | [other, onto, target, zstr] =>
    match pyFloat zstr with
    | none => st
    | some z =>
      if onto ≠ kwONTO then st
      else
        let otherName := sanitized other
        let targetName := sanitized target
        if ¬ ((dlookup st.1 otherName).isSome ∨ otherName = FPNL)
            ∨ ¬ (dlookup st.1 targetName).isSome then st
        else
          match dlookup st.2 stackStr, dlookup st.1 targetName with
          | some stackPos, some targetBd =>
            let sb : StackedBoard ℚ :=
              ⟨otherName, (stackPos.1 - targetBd.bounds.1, stackPos.2 - targetBd.bounds.2.1, z)⟩
            (dinsert st.1 targetName
              { targetBd with stacked_boards := targetBd.stacked_boards ++ [sb] },
             dpop st.2 stackStr)
          | _, _ => st
  | _ => st

/-- The classification pass (export.py lines 78-100): fold `scanStep`
over all text drawings, starting from empty buckets. -/
def scanPass (drawings : List (Str × Pos)) : ScanSt :=
  drawings.foldl scanStep ⟨[], [], [], []⟩

/-- The board-resolution pass (export.py lines 102-113): iterate over a
snapshot of the top-left bucket's keys (`tls.copy()`). -/
def boardPass (tls brs : List (Str × Pos)) :
    List (Str × BoardDef ℚ) × List (Str × Pos) × List (Str × Pos) :=
  (dkeys tls).foldl boardStep ([], tls, brs)

/-- The stack-resolution pass (export.py lines 115-137): iterate over a
snapshot of the stack bucket's keys (`stacks.copy()`). -/
def stackPass (bdefs : List (Str × BoardDef ℚ)) (stks : List (Str × Pos)) :
    List (Str × BoardDef ℚ) × List (Str × Pos) :=
  (dkeys stks).foldl stackStep (bdefs, stks)

/-- `get_boarddefs(board)` (export.py lines 77-141). The input models the
board's text drawings as `(text, position-in-mm)` pairs, in drawing order. -/
def get_boarddefs (drawings : List (Str × Pos)) :
    List (Str × BoardDef ℚ) × List Str :=
  let s := scanPass drawings
  let b := boardPass s.tls s.brs
  let t := stackPass b.1 s.stks
  (t.1, s.ignored ++ dkeys b.2.1 ++ dkeys b.2.2 ++ dkeys t.2)

/-- A text is rejected by the classification pass's final `else` branch
(export.py lines 99-100): it carries the reserved prefix but none of the
three marker prefixes. -/
def scanRejected (t : Str) : Bool :=
  startswith t prefixPCB3D && !startswith t prefixTL && !startswith t prefixBR
    && !startswith t prefixSTACK

/-! ## Whole-board bounds (export.py lines 22, 44-49) -/

/-- `SVG_MARGIN = 1.0  # mm`. -/
def SVG_MARGIN : ℚ := 1

/-- The whole-board bounds tuple computed by `export_pcb3d` (lines 45-49)
from the raw edge-only bounding box `(GetTop, GetLeft, GetBottom, GetRight)`
in millimeters: the code subtracts the margin from the first two components
and adds twice the margin to the last two. -/
def export_pcb3d_bounds (t l b r : ℚ) : ℚ × ℚ × ℚ × ℚ :=
  (t - SVG_MARGIN, l - SVG_MARGIN, b + SVG_MARGIN * 2, r + SVG_MARGIN * 2)

/-- Modelled from the spec: the `layers/bounds` record as §4.2 describes it,
`(top, left, width, height)` with the margin applied — top and left reduced
by the margin, width `(right - left)` and height `(bottom - top)` each grown
by twice the margin. Compared against `export_pcb3d_bounds`. -/
def spec_bounds_record (t l b r : ℚ) : ℚ × ℚ × ℚ × ℚ :=
  (t - SVG_MARGIN, l - SVG_MARGIN, (r - l) + SVG_MARGIN * 2, (b - t) + SVG_MARGIN * 2)

/-! ## Archive records (export.py lines 10-16, 52-75) -/

/-- A path separator. -/
def slash : Str := ['/']

/-- `PCB = "pcb.wrl"`. -/
def PCBfile : Str := ['p', 'c', 'b', '.', 'w', 'r', 'l']

/-- `COMPONENTS = "components"`. -/
def COMPONENTS : Str := ['c', 'o', 'm', 'p', 'o', 'n', 'e', 'n', 't', 's']

/-- `LAYERS = "layers"`. -/
def LAYERS : Str := ['l', 'a', 'y', 'e', 'r', 's']

/-- `LAYERS_BOUNDS = "bounds"`. -/
def LAYERS_BOUNDS : Str := ['b', 'o', 'u', 'n', 'd', 's']

/-- `BOARDS = "boards"`. -/
def BOARDS : Str := ['b', 'o', 'a', 'r', 'd', 's']

/-- `BOUNDS = "bounds"`. -/
def BOUNDS : Str := ['b', 'o', 'u', 'n', 'd', 's']

/-- `STACKED = "stacked_"`. -/
def STACKED : Str := ['s', 't', 'a', 'c', 'k', 'e', 'd', '_']

/-- Big-endian byte serialization of one 32-bit word (one `!f` field of
`struct.pack`, with the IEEE-754 binary32 value given as its bit pattern). -/
def packBE32 (w : ℕ) : List ℕ :=
  [w / 2 ^ 24 % 256, w / 2 ^ 16 % 256, w / 2 ^ 8 % 256, w % 256]

/-- `struct.pack("!ffff", *b)`. -/
def pack4 (b : ℕ × ℕ × ℕ × ℕ) : List ℕ :=
  packBE32 b.1 ++ packBE32 b.2.1 ++ packBE32 b.2.2.1 ++ packBE32 b.2.2.2

/-- `struct.pack("!fff", *b)`. -/
def pack3 (b : ℕ × ℕ × ℕ) : List ℕ :=
  packBE32 b.1 ++ packBE32 b.2.1 ++ packBE32 b.2.2

/-- Big-endian deserialization of one 32-bit word from four bytes. -/
def unpackBE32 : List ℕ → ℕ
  | [a, b, c, d] => (a % 256) * 2 ^ 24 + (b % 256) * 2 ^ 16 + (c % 256) * 2 ^ 8 + d % 256
  | _ => 0

/-- `struct.unpack("!ffff", data)`. -/
def unpack4 (l : List ℕ) : ℕ × ℕ × ℕ × ℕ :=
  (unpackBE32 (l.take 4), unpackBE32 ((l.drop 4).take 4),
   unpackBE32 ((l.drop 8).take 4), unpackBE32 ((l.drop 12).take 4))

/-- `struct.unpack("!fff", data)`. -/
def unpack3 (l : List ℕ) : ℕ × ℕ × ℕ :=
  (unpackBE32 (l.take 4), unpackBE32 ((l.drop 4).take 4), unpackBE32 ((l.drop 8).take 4))

/-- The sequence of zip entries `(archive path, bytes)` written by
`export_pcb3d` (lines 52-75), in write order.  The whole-board model file,
the component models and the layer SVGs are externally produced and passed
in as opaque byte lists; `layersBounds`, board `bounds` and stacking
`offset` values carry the binary32 bit patterns stored by `pack("!f")`. -/
def exportEntries (wrl : List ℕ) (comps layerSvgs : List (Str × List ℕ))
    (layersBounds : ℕ × ℕ × ℕ × ℕ) (boarddefs : List (Str × BoardDef ℕ)) :
    List (Str × List ℕ) :=
  [(COMPONENTS ++ slash, []), (LAYERS ++ slash, []), (BOARDS ++ slash, [])]
  ++ [(PCBfile, wrl)]
  ++ comps.map (fun p => (COMPONENTS ++ slash ++ p.1, p.2))
  ++ layerSvgs.map (fun p => (LAYERS ++ slash ++ p.1, p.2))
  ++ [(LAYERS ++ slash ++ LAYERS_BOUNDS, pack4 layersBounds)]
  ++ ((dvalues boarddefs).map (fun bd =>
        (BOARDS ++ slash ++ bd.name ++ slash ++ BOUNDS, pack4 bd.bounds)
        :: bd.stacked_boards.map (fun sb =>
            (BOARDS ++ slash ++ bd.name ++ slash ++ (STACKED ++ sb.name), pack3 sb.offset)))).flatten

/-! ## Names used by concrete scenarios -/

def strMain : Str := ['M', 'a', 'i', 'n']

def strDaughter : Str := ['D', 'a', 'u', 'g', 'h', 't', 'e', 'r']

def zFive : Str := ['5', '.', '0']

def stackMainText : Str := prefixSTACK ++ strDaughter ++ ['_'] ++ kwONTO ++ ['_'] ++ strMain ++ ['_'] ++ zFive

/-- The three annotations of the spec's end-to-end scenario. -/
def c3Input : List (Str × Pos) :=
  [(prefixTL ++ strMain, (0, 0)), (prefixBR ++ strMain, (100, 50)), (stackMainText, (10, 10))]

def strHello : Str := ['h', 'e', 'l', 'l', 'o']

/-- `"PCB3D_X"`: reserved prefix, but no recognized secondary prefix. -/
def dupText : Str := prefixPCB3D ++ ['X']

/-- The resolved `Main` board used in witnesses. -/
def mainBd : BoardDef ℚ := ⟨strMain, (0, 0, 100, 50), []⟩

/-- `"PCB3D_STACK_FPNL_ONTO_Main_5.0"`. -/
def stackFpnlText : Str :=
  prefixSTACK ++ FPNL ++ ['_'] ++ kwONTO ++ ['_'] ++ strMain ++ ['_'] ++ zFive

/-- `"X_ONTO_Main_notanumber"`, the suffix of the spec's malformed marker. -/
def restNan : Str :=
  ['X', '_'] ++ kwONTO ++ ['_'] ++ strMain ++ ['_']
    ++ ['n', 'o', 't', 'a', 'n', 'u', 'm', 'b', 'e', 'r']

/-- Input of the malformed-marker scenario: a resolved `Main` board plus the
marker `PCB3D_STACK_X_ONTO_Main_notanumber`. -/
def c6Input : List (Str × Pos) :=
  [(prefixTL ++ strMain, (0, 0)), (prefixBR ++ strMain, (100, 50)),
   (prefixSTACK ++ restNan, (10, 10))]

/-- `"A_ONTO_B_5.0"`: a well-formed stack suffix whose target `B` is never
defined as a board. -/
def restLoneStack : Str := ['A', '_'] ++ kwONTO ++ ['_', 'B', '_'] ++ zFive

example : sanitized ['F', 'r', 'o', 'n', 't', ' ', 'P', 'a', 'n', 'e', 'l', '!', '!'] =
    ['F', 'r', 'o', 'n', 't', '_', 'P', 'a', 'n', 'e', 'l', '_'] := by decide

example : pyFloat zFive = some 5 := by
  simp +decide [pyFloat, pySign, pySignZ, pyExpo, natOfDigits, digitVal, zFive]

example : splitUnd (stackMainText.drop 12) = [strDaughter, kwONTO, strMain, zFive] := by
  simp +decide [splitUnd, stackMainText, prefixSTACK, strDaughter, kwONTO, strMain, zFive]

example :
    get_boarddefs
      [(prefixTL ++ strMain, (0, 0)), (prefixBR ++ strMain, (100, 50)), (stackMainText, (10, 10))] =
    ([(strMain, ⟨strMain, (0, 0, 100, 50), []⟩)], [stackMainText]) := by
  simp +decide [get_boarddefs, scanPass, boardPass, stackPass, scanStep, boardStep, stackStep, dsetdefault, dlookup, dpop, dinsert,
    dkeys, startswith, splitUnd, pyFloat, pySign, pySignZ, pyExpo, natOfDigits, digitVal,
    sanitized, sanGo, isWordChar, prefixPCB3D, prefixTL, prefixBR, prefixSTACK, kwONTO, FPNL,
    strMain, strDaughter, zFive, stackMainText]

example : get_boarddefs [(['h', 'e', 'l', 'l', 'o'], (0, 0))] = ([], []) := by
  simp +decide [get_boarddefs, scanPass, boardPass, stackPass, scanStep, dkeys, startswith, prefixPCB3D]

/-! ## String helper lemmas -/

theorem startswith_nil (s : Str) : startswith s [] = true := by cases s <;> rfl

theorem startswith_append (pre s : Str) : startswith (pre ++ s) pre = true := by
  induction pre with
  | nil => exact startswith_nil s
  | cons c cs ih => simp [startswith, ih]

theorem startswith_iff {s pre : Str} : startswith s pre = true ↔ ∃ t, s = pre ++ t := by
  induction pre generalizing s with
  | nil => simp [startswith]
  | cons p ps ih =>
    cases s with
    | nil => simp [startswith]
    | cons c cs => simp [startswith, ih, List.cons_eq_cons]

theorem append_inj_right {pre a b : Str} (h : pre ++ a = pre ++ b) : a = b := by
  induction pre with
  | nil => exact h
  | cons c cs ih => exact ih (by injection h)

theorem sw_tl_pcb3d (n : Str) : startswith (prefixTL ++ n) prefixPCB3D = true :=
  startswith_append prefixPCB3D (['T', 'L', '_'] ++ n)

theorem sw_br_pcb3d (n : Str) : startswith (prefixBR ++ n) prefixPCB3D = true :=
  startswith_append prefixPCB3D (['B', 'R', '_'] ++ n)

theorem sw_stack_pcb3d (n : Str) : startswith (prefixSTACK ++ n) prefixPCB3D = true :=
  startswith_append prefixPCB3D (['S', 'T', 'A', 'C', 'K', '_'] ++ n)

theorem sw_tl_tl (n : Str) : startswith (prefixTL ++ n) prefixTL = true :=
  startswith_append prefixTL n

theorem sw_br_br (n : Str) : startswith (prefixBR ++ n) prefixBR = true :=
  startswith_append prefixBR n

theorem sw_stack_stack (n : Str) : startswith (prefixSTACK ++ n) prefixSTACK = true :=
  startswith_append prefixSTACK n

theorem sw_br_tl (n : Str) : startswith (prefixBR ++ n) prefixTL = false := by
  simp +decide [prefixBR, prefixTL, startswith]

theorem sw_stack_tl (n : Str) : startswith (prefixSTACK ++ n) prefixTL = false := by
  simp +decide [prefixSTACK, prefixTL, startswith]

theorem sw_stack_br (n : Str) : startswith (prefixSTACK ++ n) prefixBR = false := by
  simp +decide [prefixSTACK, prefixBR, startswith]

theorem drop9_tl (n : Str) : (prefixTL ++ n).drop 9 = n := rfl

theorem drop12_stack (n : Str) : (prefixSTACK ++ n).drop 12 = n := rfl

/-! ## Dict helper lemmas -/

theorem dlookup_isSome_iff {β : Type} {d : List (Str × β)} {k : Str} :
    (dlookup d k).isSome = true ↔ k ∈ dkeys d := by
  induction d with
  | nil => simp [dlookup, dkeys]
  | cons e d ih =>
    rcases e with ⟨ek, ev⟩
    by_cases h : ek = k
    · subst h
      rw [show dlookup ((ek, ev) :: d) ek = some ev from by simp [dlookup]]
      rw [show dkeys ((ek, ev) :: d) = ek :: dkeys d from rfl]
      simp
    · rw [show dlookup ((ek, ev) :: d) k = dlookup d k from by simp [dlookup, h]]
      rw [show dkeys ((ek, ev) :: d) = ek :: dkeys d from rfl]
      rw [List.mem_cons, ih]
      constructor
      · exact Or.inr
      · rintro (rfl | hm)
        · exact absurd rfl h
        · exact hm

theorem dlookup_eq_none_iff {β : Type} {d : List (Str × β)} {k : Str} :
    dlookup d k = none ↔ k ∉ dkeys d := by
  rw [← dlookup_isSome_iff]
  cases dlookup d k <;> simp

theorem dkeys_cons {β : Type} (e : Str × β) (d : List (Str × β)) :
    dkeys (e :: d) = e.1 :: dkeys d := rfl

theorem dkeys_append {β : Type} (d₁ d₂ : List (Str × β)) :
    dkeys (d₁ ++ d₂) = dkeys d₁ ++ dkeys d₂ := List.map_append _ _ _

theorem dsetdefault_of_mem {β : Type} {d : List (Str × β)} {k : Str} (v : β)
    (h : k ∈ dkeys d) : dsetdefault d k v = d := by
  unfold dsetdefault
  rw [if_pos (dlookup_isSome_iff.mpr h)]

theorem mem_dkeys_dsetdefault_self {β : Type} (d : List (Str × β)) (k : Str) (v : β) :
    k ∈ dkeys (dsetdefault d k v) := by
  unfold dsetdefault
  by_cases h : (dlookup d k).isSome = true
  · rw [if_pos h]
    exact dlookup_isSome_iff.mp h
  · rw [if_neg h, dkeys_append]
    exact List.mem_append_right _
      (by rw [show dkeys [(k, v)] = [k] from rfl]; exact List.mem_singleton_self k)

theorem mem_dkeys_dsetdefault_of_mem {β : Type} {d : List (Str × β)} {k' : Str}
    (k : Str) (v : β) (h : k' ∈ dkeys d) : k' ∈ dkeys (dsetdefault d k v) := by
  unfold dsetdefault
  split
  · exact h
  · rw [dkeys_append]
    exact List.mem_append_left _ h

theorem nodup_dkeys_dsetdefault {β : Type} {d : List (Str × β)} {k : Str} {v : β}
    (h : (dkeys d).Nodup) : (dkeys (dsetdefault d k v)).Nodup := by
  unfold dsetdefault
  by_cases hs : (dlookup d k).isSome = true
  · rw [if_pos hs]
    exact h
  · rw [if_neg hs, dkeys_append]
    have hk : k ∉ dkeys d := fun hm => hs (dlookup_isSome_iff.mpr hm)
    rw [show dkeys [(k, v)] = [k] from rfl]
    refine List.Nodup.append h (List.nodup_singleton k) ?_
    intro x hx hx2
    rw [List.mem_singleton] at hx2
    subst hx2
    exact hk hx

theorem mem_dkeys_dpop_of_ne {β : Type} {d : List (Str × β)} {k' k : Str}
    (hne : k' ≠ k) (h : k' ∈ dkeys d) : k' ∈ dkeys (dpop d k) := by
  induction d with
  | nil => exact absurd h (List.not_mem_nil k')
  | cons e d ih =>
    rw [show dpop (e :: d) k = if e.1 = k then d else e :: dpop d k from rfl]
    rcases List.mem_cons.mp h with h1 | h1
    · have : ¬ e.1 = k := by rw [← h1]; exact hne
      rw [if_neg this, dkeys_cons]
      exact List.mem_cons.mpr (Or.inl h1)
    · by_cases he : e.1 = k
      · rw [if_pos he]
        exact h1
      · rw [if_neg he, dkeys_cons]
        exact List.mem_cons.mpr (Or.inr (ih h1))

theorem mem_dkeys_of_mem_dpop {β : Type} {d : List (Str × β)} {k' k : Str}
    (h : k' ∈ dkeys (dpop d k)) : k' ∈ dkeys d := by
  induction d with
  | nil => exact absurd h (List.not_mem_nil k')
  | cons e d ih =>
    rw [show dpop (e :: d) k = if e.1 = k then d else e :: dpop d k from rfl] at h
    by_cases he : e.1 = k
    · rw [if_pos he] at h
      exact List.mem_cons.mpr (Or.inr h)
    · rw [if_neg he, dkeys_cons] at h
      rcases List.mem_cons.mp h with h1 | h1
      · exact List.mem_cons.mpr (Or.inl h1)
      · exact List.mem_cons.mpr (Or.inr (ih h1))

theorem dlookup_dpop_of_ne {β : Type} {d : List (Str × β)} {k' k : Str}
    (hne : k' ≠ k) : dlookup (dpop d k) k' = dlookup d k' := by
  induction d with
  | nil => rfl
  | cons e d ih =>
    rw [show dpop (e :: d) k = if e.1 = k then d else e :: dpop d k from rfl]
    by_cases he : e.1 = k
    · rw [if_pos he]
      have : ¬ e.1 = k' := by rw [he]; exact fun hh => hne hh.symm
      rw [show dlookup (e :: d) k' = dlookup d k' from by simp [dlookup, this]]
    · rw [if_neg he]
      by_cases he' : e.1 = k'
      · simp [dlookup, he']
      · simp [dlookup, he', ih]

theorem dlookup_dinsert_self {β : Type} (d : List (Str × β)) (k : Str) (v : β) :
    dlookup (dinsert d k v) k = some v := by
  induction d with
  | nil => simp [dinsert, dlookup]
  | cons e d ih =>
    rw [show dinsert (e :: d) k v = if e.1 = k then (k, v) :: d else e :: dinsert d k v from rfl]
    by_cases he : e.1 = k
    · rw [if_pos he]
      simp [dlookup]
    · rw [if_neg he]
      simp [dlookup, he, ih]

theorem dlookup_dinsert_of_ne {β : Type} {d : List (Str × β)} {k k' : Str} (v : β)
    (hne : k' ≠ k) : dlookup (dinsert d k v) k' = dlookup d k' := by
  induction d with
  | nil =>
    have : ¬ k = k' := fun hh => hne hh.symm
    simp [dinsert, dlookup, this]
  | cons e d ih =>
    rw [show dinsert (e :: d) k v = if e.1 = k then (k, v) :: d else e :: dinsert d k v from rfl]
    by_cases he : e.1 = k
    · rw [if_pos he]
      have h1 : ¬ k = k' := fun hh => hne hh.symm
      have h2 : ¬ e.1 = k' := by rw [he]; exact h1
      simp [dlookup, h1, h2]
    · rw [if_neg he]
      by_cases he' : e.1 = k'
      · simp [dlookup, he']
      · simp [dlookup, he', ih]

theorem dkeys_dinsert_of_mem {β : Type} {d : List (Str × β)} {k : Str} (v : β)
    (h : k ∈ dkeys d) : dkeys (dinsert d k v) = dkeys d := by
  induction d with
  | nil => exact absurd h (List.not_mem_nil k)
  | cons e d ih =>
    rw [show dinsert (e :: d) k v = if e.1 = k then (k, v) :: d else e :: dinsert d k v from rfl]
    by_cases he : e.1 = k
    · rw [if_pos he, dkeys_cons, dkeys_cons, he]
    · rw [if_neg he, dkeys_cons, dkeys_cons]
      rcases List.mem_cons.mp h with h1 | h1
      · exact absurd h1.symm he
      · rw [ih h1]

theorem mem_dkeys_dsetdefault_cases {β : Type} {d : List (Str × β)} {k' k : Str} {v : β}
    (h : k' ∈ dkeys (dsetdefault d k v)) : k' = k ∨ k' ∈ dkeys d := by
  unfold dsetdefault at h
  split at h
  · exact Or.inr h
  · rw [dkeys_append] at h
    rcases List.mem_append.mp h with h1 | h1
    · exact Or.inr h1
    · rw [show dkeys [(k, v)] = [k] from rfl, List.mem_singleton] at h1
      exact Or.inl h1

/-! ## Generic fold invariant -/

theorem foldl_inv {σ α : Type _} {P : σ → Prop} {f : σ → α → σ}
    (hstep : ∀ st a, P st → P (f st a)) :
    ∀ (l : List α) (st : σ), P st → P (l.foldl f st)
  | [], _, h => h
  | a :: l, st, h => foldl_inv hstep l (f st a) (hstep st a h)

/-! ## Classification pass lemmas -/

theorem sw_pcb3d_of_tl {t : Str} (h : startswith t prefixTL = true) :
    startswith t prefixPCB3D = true := by
  obtain ⟨r, rfl⟩ := startswith_iff.mp h
  exact sw_tl_pcb3d r

theorem sw_pcb3d_of_br {t : Str} (h : startswith t prefixBR = true) :
    startswith t prefixPCB3D = true := by
  obtain ⟨r, rfl⟩ := startswith_iff.mp h
  exact sw_br_pcb3d r

theorem sw_pcb3d_of_stack {t : Str} (h : startswith t prefixSTACK = true) :
    startswith t prefixPCB3D = true := by
  obtain ⟨r, rfl⟩ := startswith_iff.mp h
  exact sw_stack_pcb3d r

theorem sw_tl_false_of_br {t : Str} (h : startswith t prefixBR = true) :
    startswith t prefixTL = false := by
  obtain ⟨r, rfl⟩ := startswith_iff.mp h
  exact sw_br_tl r

theorem sw_tl_false_of_stack {t : Str} (h : startswith t prefixSTACK = true) :
    startswith t prefixTL = false := by
  obtain ⟨r, rfl⟩ := startswith_iff.mp h
  exact sw_stack_tl r

theorem sw_br_false_of_stack {t : Str} (h : startswith t prefixSTACK = true) :
    startswith t prefixBR = false := by
  obtain ⟨r, rfl⟩ := startswith_iff.mp h
  exact sw_stack_br r

theorem scanStep_tls_cases (st : ScanSt) (a : Str × Pos) :
    (scanStep st a).tls = st.tls ∨
    ((scanStep st a).tls = dsetdefault st.tls a.1 a.2 ∧ startswith a.1 prefixTL = true) := by
  unfold scanStep
  by_cases h0 : startswith a.1 prefixPCB3D = true
  · rw [if_pos h0]
    by_cases h1 : startswith a.1 prefixTL = true
    · rw [if_pos h1]
      exact Or.inr ⟨rfl, h1⟩
    · rw [if_neg h1]
      by_cases h2 : startswith a.1 prefixBR = true
      · rw [if_pos h2]
        exact Or.inl rfl
      · rw [if_neg h2]
        by_cases h3 : startswith a.1 prefixSTACK = true
        · rw [if_pos h3]
          exact Or.inl rfl
        · rw [if_neg h3]
          exact Or.inl rfl
  · rw [if_neg h0]
    exact Or.inl rfl

theorem scanStep_brs_cases (st : ScanSt) (a : Str × Pos) :
    (scanStep st a).brs = st.brs ∨
    ((scanStep st a).brs = dsetdefault st.brs a.1 a.2 ∧ startswith a.1 prefixBR = true) := by
  unfold scanStep
  by_cases h0 : startswith a.1 prefixPCB3D = true
  · rw [if_pos h0]
    by_cases h1 : startswith a.1 prefixTL = true
    · rw [if_pos h1]
      exact Or.inl rfl
    · rw [if_neg h1]
      by_cases h2 : startswith a.1 prefixBR = true
      · rw [if_pos h2]
        exact Or.inr ⟨rfl, h2⟩
      · rw [if_neg h2]
        by_cases h3 : startswith a.1 prefixSTACK = true
        · rw [if_pos h3]
          exact Or.inl rfl
        · rw [if_neg h3]
          exact Or.inl rfl
  · rw [if_neg h0]
    exact Or.inl rfl

theorem scanStep_stks_cases (st : ScanSt) (a : Str × Pos) :
    (scanStep st a).stks = st.stks ∨
    ((scanStep st a).stks = dsetdefault st.stks a.1 a.2 ∧ startswith a.1 prefixSTACK = true) := by
  unfold scanStep
  by_cases h0 : startswith a.1 prefixPCB3D = true
  · rw [if_pos h0]
    by_cases h1 : startswith a.1 prefixTL = true
    · rw [if_pos h1]
      exact Or.inl rfl
    · rw [if_neg h1]
      by_cases h2 : startswith a.1 prefixBR = true
      · rw [if_pos h2]
        exact Or.inl rfl
      · rw [if_neg h2]
        by_cases h3 : startswith a.1 prefixSTACK = true
        · rw [if_pos h3]
          exact Or.inr ⟨rfl, h3⟩
        · rw [if_neg h3]
          exact Or.inl rfl
  · rw [if_neg h0]
    exact Or.inl rfl

theorem scanStep_mem_tls {st : ScanSt} {k : Str} (a : Str × Pos)
    (h : k ∈ dkeys st.tls) : k ∈ dkeys (scanStep st a).tls := by
  rcases scanStep_tls_cases st a with h1 | ⟨h1, _⟩
  · rw [h1]; exact h
  · rw [h1]; exact mem_dkeys_dsetdefault_of_mem _ _ h

theorem scanStep_mem_brs {st : ScanSt} {k : Str} (a : Str × Pos)
    (h : k ∈ dkeys st.brs) : k ∈ dkeys (scanStep st a).brs := by
  rcases scanStep_brs_cases st a with h1 | ⟨h1, _⟩
  · rw [h1]; exact h
  · rw [h1]; exact mem_dkeys_dsetdefault_of_mem _ _ h

theorem scanStep_mem_stks {st : ScanSt} {k : Str} (a : Str × Pos)
    (h : k ∈ dkeys st.stks) : k ∈ dkeys (scanStep st a).stks := by
  rcases scanStep_stks_cases st a with h1 | ⟨h1, _⟩
  · rw [h1]; exact h
  · rw [h1]; exact mem_dkeys_dsetdefault_of_mem _ _ h

theorem scan_mem_tls {t : Str} {p : Pos} :
    ∀ (ds : List (Str × Pos)) (st : ScanSt), (t, p) ∈ ds →
      startswith t prefixTL = true → t ∈ dkeys (ds.foldl scanStep st).tls
  | a :: ds, st, hmem, htl => by
    rcases List.mem_cons.mp hmem with h1 | h1
    · rw [List.foldl_cons]
      refine foldl_inv (P := fun s => t ∈ dkeys s.tls) (f := scanStep)
        (fun st' a' h => scanStep_mem_tls a' h) ds (scanStep st a) ?_
      have : (scanStep st a).tls = dsetdefault st.tls a.1 a.2 := by
        unfold scanStep
        rw [← h1, if_pos (sw_pcb3d_of_tl htl), if_pos htl]
      show t ∈ dkeys (scanStep st a).tls
      rw [this, ← h1]
      exact mem_dkeys_dsetdefault_self st.tls t p
    · rw [List.foldl_cons]
      exact scan_mem_tls ds (scanStep st a) h1 htl

theorem scan_mem_brs {t : Str} {p : Pos} :
    ∀ (ds : List (Str × Pos)) (st : ScanSt), (t, p) ∈ ds →
      startswith t prefixBR = true → t ∈ dkeys (ds.foldl scanStep st).brs
  | a :: ds, st, hmem, hbr => by
    rcases List.mem_cons.mp hmem with h1 | h1
    · rw [List.foldl_cons]
      refine foldl_inv (P := fun s => t ∈ dkeys s.brs) (f := scanStep)
        (fun st' a' h => scanStep_mem_brs a' h) ds (scanStep st a) ?_
      have : (scanStep st a).brs = dsetdefault st.brs a.1 a.2 := by
        unfold scanStep
        rw [← h1, if_pos (sw_pcb3d_of_br hbr), if_neg (by simp [sw_tl_false_of_br hbr]),
          if_pos hbr]
      show t ∈ dkeys (scanStep st a).brs
      rw [this, ← h1]
      exact mem_dkeys_dsetdefault_self st.brs t p
    · rw [List.foldl_cons]
      exact scan_mem_brs ds (scanStep st a) h1 hbr

theorem scan_mem_stks {t : Str} {p : Pos} :
    ∀ (ds : List (Str × Pos)) (st : ScanSt), (t, p) ∈ ds →
      startswith t prefixSTACK = true → t ∈ dkeys (ds.foldl scanStep st).stks
  | a :: ds, st, hmem, hst => by
    rcases List.mem_cons.mp hmem with h1 | h1
    · rw [List.foldl_cons]
      refine foldl_inv (P := fun s => t ∈ dkeys s.stks) (f := scanStep)
        (fun st' a' h => scanStep_mem_stks a' h) ds (scanStep st a) ?_
      have : (scanStep st a).stks = dsetdefault st.stks a.1 a.2 := by
        unfold scanStep
        rw [← h1, if_pos (sw_pcb3d_of_stack hst), if_neg (by simp [sw_tl_false_of_stack hst]),
          if_neg (by simp [sw_br_false_of_stack hst]), if_pos hst]
      show t ∈ dkeys (scanStep st a).stks
      rw [this, ← h1]
      exact mem_dkeys_dsetdefault_self st.stks t p
    · rw [List.foldl_cons]
      exact scan_mem_stks ds (scanStep st a) h1 hst

theorem scan_tls_prefixed (ds : List (Str × Pos)) (st : ScanSt)
    (h : ∀ k ∈ dkeys st.tls, startswith k prefixTL = true) :
    ∀ k ∈ dkeys (ds.foldl scanStep st).tls, startswith k prefixTL = true := by
  refine foldl_inv (P := fun s => ∀ k ∈ dkeys s.tls, startswith k prefixTL = true)
    ?_ ds st h
  intro st' a hP k hk
  rcases scanStep_tls_cases st' a with h1 | ⟨h1, h2⟩
  · exact hP k (h1 ▸ hk)
  · rw [h1] at hk
    rcases mem_dkeys_dsetdefault_cases hk with h3 | h3
    · rw [h3]; exact h2
    · exact hP k h3

theorem scan_nodup_tls (ds : List (Str × Pos)) (st : ScanSt)
    (h : (dkeys st.tls).Nodup) : (dkeys (ds.foldl scanStep st).tls).Nodup := by
  refine foldl_inv (P := fun s => (dkeys s.tls).Nodup) ?_ ds st h
  intro st' a hP
  rcases scanStep_tls_cases st' a with h1 | ⟨h1, _⟩
  · rw [h1]; exact hP
  · rw [h1]; exact nodup_dkeys_dsetdefault hP

theorem scan_nodup_brs (ds : List (Str × Pos)) (st : ScanSt)
    (h : (dkeys st.brs).Nodup) : (dkeys (ds.foldl scanStep st).brs).Nodup := by
  refine foldl_inv (P := fun s => (dkeys s.brs).Nodup) ?_ ds st h
  intro st' a hP
  rcases scanStep_brs_cases st' a with h1 | ⟨h1, _⟩
  · rw [h1]; exact hP
  · rw [h1]; exact nodup_dkeys_dsetdefault hP

theorem scan_nodup_stks (ds : List (Str × Pos)) (st : ScanSt)
    (h : (dkeys st.stks).Nodup) : (dkeys (ds.foldl scanStep st).stks).Nodup := by
  refine foldl_inv (P := fun s => (dkeys s.stks).Nodup) ?_ ds st h
  intro st' a hP
  rcases scanStep_stks_cases st' a with h1 | ⟨h1, _⟩
  · rw [h1]; exact hP
  · rw [h1]; exact nodup_dkeys_dsetdefault hP

theorem scan_brs_sub :
    ∀ (ds : List (Str × Pos)) (st : ScanSt) (k : Str),
      k ∈ dkeys (ds.foldl scanStep st).brs → k ∈ dkeys st.brs ∨ k ∈ ds.map Prod.fst
  | [], _, _, h => Or.inl h
  | a :: ds, st, k, h => by
    rw [List.foldl_cons] at h
    rcases scan_brs_sub ds (scanStep st a) k h with h1 | h1
    · rcases scanStep_brs_cases st a with h2 | ⟨h2, _⟩
      · rw [h2] at h1
        exact Or.inl h1
      · rw [h2] at h1
        rcases mem_dkeys_dsetdefault_cases h1 with h3 | h3
        · exact Or.inr (by rw [List.map_cons, h3]; exact List.mem_cons_self _ _)
        · exact Or.inl h3
    · exact Or.inr (by rw [List.map_cons]; exact List.mem_cons.mpr (Or.inr h1))

theorem scan_tls_sub :
    ∀ (ds : List (Str × Pos)) (st : ScanSt) (k : Str),
      k ∈ dkeys (ds.foldl scanStep st).tls → k ∈ dkeys st.tls ∨ k ∈ ds.map Prod.fst
  | [], _, _, h => Or.inl h
  | a :: ds, st, k, h => by
    rw [List.foldl_cons] at h
    rcases scan_tls_sub ds (scanStep st a) k h with h1 | h1
    · rcases scanStep_tls_cases st a with h2 | ⟨h2, _⟩
      · rw [h2] at h1
        exact Or.inl h1
      · rw [h2] at h1
        rcases mem_dkeys_dsetdefault_cases h1 with h3 | h3
        · exact Or.inr (by rw [List.map_cons, h3]; exact List.mem_cons_self _ _)
        · exact Or.inl h3
    · exact Or.inr (by rw [List.map_cons]; exact List.mem_cons.mpr (Or.inr h1))

theorem scanStep_ignored (st : ScanSt) (a : Str × Pos) :
    (scanStep st a).ignored = st.ignored ++ (if scanRejected a.1 then [a.1] else []) := by
  unfold scanStep scanRejected
  by_cases h0 : startswith a.1 prefixPCB3D = true
  · rw [if_pos h0]
    by_cases h1 : startswith a.1 prefixTL = true
    · rw [if_pos h1]
      simp [h0, h1]
    · rw [if_neg h1]
      by_cases h2 : startswith a.1 prefixBR = true
      · rw [if_pos h2]
        simp [h0, h2]
      · rw [if_neg h2]
        by_cases h3 : startswith a.1 prefixSTACK = true
        · rw [if_pos h3]
          simp [h0, h3]
        · rw [if_neg h3]
          rw [Bool.not_eq_true] at h1 h2 h3
          simp [h0, h1, h2, h3]
  · rw [if_neg h0]
    rw [Bool.not_eq_true] at h0
    simp [h0]

theorem scan_ignored_spec :
    ∀ (ds : List (Str × Pos)) (st : ScanSt),
      (ds.foldl scanStep st).ignored
        = st.ignored ++ (ds.filter (fun a => scanRejected a.1)).map Prod.fst
  | [], st => by simp
  | a :: ds, st => by
    rw [List.foldl_cons, scan_ignored_spec ds (scanStep st a), scanStep_ignored]
    by_cases h : scanRejected a.1 = true
    · have hf : List.filter (fun x => scanRejected x.1) (a :: ds)
          = a :: List.filter (fun x => scanRejected x.1) ds := List.filter_cons_of_pos h
      rw [if_pos h, hf, List.map_cons, List.append_assoc]
      rfl
    · have hf : List.filter (fun x => scanRejected x.1) (a :: ds)
          = List.filter (fun x => scanRejected x.1) ds :=
        List.filter_cons_of_neg (by simpa using h)
      rw [if_neg h, hf, List.append_nil]

theorem scanStep_noop_of_mem {st : ScanSt} {a : Str × Pos}
    (h : (startswith a.1 prefixTL = true ∧ a.1 ∈ dkeys st.tls)
       ∨ (startswith a.1 prefixBR = true ∧ a.1 ∈ dkeys st.brs)
       ∨ (startswith a.1 prefixSTACK = true ∧ a.1 ∈ dkeys st.stks)) :
    scanStep st a = st := by
  unfold scanStep
  rcases h with ⟨h1, h2⟩ | ⟨h1, h2⟩ | ⟨h1, h2⟩
  · rw [if_pos (sw_pcb3d_of_tl h1), if_pos h1, dsetdefault_of_mem _ h2]
  · rw [if_pos (sw_pcb3d_of_br h1), if_neg (by simp [sw_tl_false_of_br h1]), if_pos h1,
      dsetdefault_of_mem _ h2]
  · rw [if_pos (sw_pcb3d_of_stack h1), if_neg (by simp [sw_tl_false_of_stack h1]),
      if_neg (by simp [sw_br_false_of_stack h1]), if_pos h1, dsetdefault_of_mem _ h2]

/-! ## Board-resolution pass lemmas -/

theorem foldl_inv_mem {σ α : Type _} {P : σ → Prop} {f : σ → α → σ} :
    ∀ (l : List α) (st : σ), (∀ st' a, a ∈ l → P st' → P (f st' a)) → P st → P (l.foldl f st)
  | [], _, _, h => h
  | a :: l, st, hstep, h =>
    foldl_inv_mem l (f st a)
      (fun st' a' ha' => hstep st' a' (List.mem_cons.mpr (Or.inr ha')))
      (hstep st a (List.mem_cons_self a l) h)

theorem boardStep_br_none {st : List (Str × BoardDef ℚ) × List (Str × Pos) × List (Str × Pos)}
    {k : Str} (h : dlookup st.2.2 (prefixBR ++ k.drop 9) = none) : boardStep st k = st := by
  simp only [boardStep, h]

theorem boardStep_cases (st : List (Str × BoardDef ℚ) × List (Str × Pos) × List (Str × Pos))
    (k : Str) :
    boardStep st k = st ∨
    ∃ brPos tlPos,
      dlookup st.2.2 (prefixBR ++ k.drop 9) = some brPos ∧
      dlookup st.2.1 k = some tlPos ∧
      boardStep st k =
        (dinsert st.1 (sanitized (k.drop 9))
          ⟨sanitized (k.drop 9), (tlPos.1, tlPos.2, brPos.1 - tlPos.1, brPos.2 - tlPos.2), []⟩,
         dpop st.2.1 k, dpop st.2.2 (prefixBR ++ k.drop 9)) := by
  rcases hbr : dlookup st.2.2 (prefixBR ++ k.drop 9) with _ | brPos
  · exact Or.inl (boardStep_br_none hbr)
  · rcases htl : dlookup st.2.1 k with _ | tlPos
    · refine Or.inl ?_
      simp only [boardStep, hbr, htl]
    · refine Or.inr ⟨brPos, tlPos, rfl, rfl, ?_⟩
      simp only [boardStep, hbr, htl]

theorem boardFold_tl_unmatched
    (l : List Str) (st : List (Str × BoardDef ℚ) × List (Str × Pos) × List (Str × Pos))
    (k : Str) (hmem : k ∈ dkeys st.2.1) (hbr : (prefixBR ++ k.drop 9) ∉ dkeys st.2.2) :
    k ∈ dkeys (l.foldl boardStep st).2.1 ∧
      (prefixBR ++ k.drop 9) ∉ dkeys (l.foldl boardStep st).2.2 := by
  refine foldl_inv
    (P := fun s => k ∈ dkeys s.2.1 ∧ (prefixBR ++ k.drop 9) ∉ dkeys s.2.2)
    (f := boardStep) ?_ l st ⟨hmem, hbr⟩
  intro st' a ⟨h1, h2⟩
  rcases boardStep_cases st' a with hc | ⟨brPos, tlPos, hlbr, hltl, hc⟩
  · rw [hc]
    exact ⟨h1, h2⟩
  · have hak : a ≠ k := by
      intro he
      subst he
      exact h2 (dlookup_isSome_iff.mp (by rw [hlbr]; rfl))
    rw [hc]
    constructor
    · exact mem_dkeys_dpop_of_ne (fun he => hak he.symm) h1
    · intro hmm
      exact h2 (mem_dkeys_of_mem_dpop hmm)

theorem boardFold_br_unmatched
    (l : List Str) (st : List (Str × BoardDef ℚ) × List (Str × Pos) × List (Str × Pos))
    (n : Str) (hmem : (prefixBR ++ n) ∈ dkeys st.2.2)
    (hl : ∀ k' ∈ l, startswith k' prefixTL = true ∧ k' ≠ prefixTL ++ n) :
    (prefixBR ++ n) ∈ dkeys (l.foldl boardStep st).2.2 := by
  refine foldl_inv_mem (P := fun s => (prefixBR ++ n) ∈ dkeys s.2.2)
    (f := boardStep) l st ?_ hmem
  intro st' a ha h1
  rcases boardStep_cases st' a with hc | ⟨brPos, tlPos, hlbr, hltl, hc⟩
  · rw [hc]
    exact h1
  · rw [hc]
    obtain ⟨hatl, hane⟩ := hl a ha
    obtain ⟨m, rfl⟩ := startswith_iff.mp hatl
    rw [drop9_tl]
    refine mem_dkeys_dpop_of_ne ?_ h1
    intro he
    exact hane (by rw [append_inj_right he])

/-! ## Stack-resolution pass lemmas -/

theorem stackStep_stks_cases (st : List (Str × BoardDef ℚ) × List (Str × Pos)) (k : Str) :
    (stackStep st k).2 = st.2 ∨ (stackStep st k).2 = dpop st.2 k := by
  unfold stackStep
  rcases hsp : splitUnd (k.drop 12) with _ | ⟨other, rest⟩
  · exact Or.inl rfl
  · rcases rest with _ | ⟨onto, rest2⟩
    · exact Or.inl rfl
    · rcases rest2 with _ | ⟨target, rest3⟩
      · exact Or.inl rfl
      · rcases rest3 with _ | ⟨zstr, rest4⟩
        · exact Or.inl rfl
        · rcases rest4 with _ | _
          · dsimp only
            rcases hz : pyFloat zstr with _ | z
            · exact Or.inl rfl
            · dsimp only
              by_cases ho : onto ≠ kwONTO
              · rw [if_pos ho]
                exact Or.inl rfl
              · rw [if_neg ho]
                by_cases hg : ¬ ((dlookup st.1 (sanitized other)).isSome = true
                    ∨ sanitized other = FPNL)
                    ∨ ¬ (dlookup st.1 (sanitized target)).isSome = true
                · rw [if_pos hg]
                  exact Or.inl rfl
                · rw [if_neg hg]
                  rcases hsk : dlookup st.2 k with _ | sp
                  · exact Or.inl rfl
                  · rcases htb : dlookup st.1 (sanitized target) with _ | tbd
                    · exact Or.inl rfl
                    · exact Or.inr rfl
          · exact Or.inl rfl

theorem stackStep_bdefs_dkeys (st : List (Str × BoardDef ℚ) × List (Str × Pos)) (k : Str) :
    dkeys (stackStep st k).1 = dkeys st.1 := by
  unfold stackStep
  rcases hsp : splitUnd (k.drop 12) with _ | ⟨other, rest⟩
  · rfl
  · rcases rest with _ | ⟨onto, rest2⟩
    · rfl
    · rcases rest2 with _ | ⟨target, rest3⟩
      · rfl
      · rcases rest3 with _ | ⟨zstr, rest4⟩
        · rfl
        · rcases rest4 with _ | _
          · dsimp only
            rcases hz : pyFloat zstr with _ | z
            · rfl
            · dsimp only
              by_cases ho : onto ≠ kwONTO
              · rw [if_pos ho]
              · rw [if_neg ho]
                by_cases hg : ¬ ((dlookup st.1 (sanitized other)).isSome = true
                    ∨ sanitized other = FPNL)
                    ∨ ¬ (dlookup st.1 (sanitized target)).isSome = true
                · rw [if_pos hg]
                · rw [if_neg hg]
                  rcases hsk : dlookup st.2 k with _ | sp
                  · rfl
                  · rcases htb : dlookup st.1 (sanitized target) with _ | tbd
                    · rfl
                    · refine dkeys_dinsert_of_mem _ ?_
                      exact dlookup_isSome_iff.mp (by rw [htb]; rfl)
          · rfl

theorem stackStep_noop_malformed {st : List (Str × BoardDef ℚ) × List (Str × Pos)} {k : Str}
    (h : ∀ other onto target zstr, splitUnd (k.drop 12) = [other, onto, target, zstr] →
      pyFloat zstr = none ∨ onto ≠ kwONTO) :
    stackStep st k = st := by
  unfold stackStep
  rcases hsp : splitUnd (k.drop 12) with _ | ⟨other, rest⟩
  · rfl
  · rcases rest with _ | ⟨onto, rest2⟩
    · rfl
    · rcases rest2 with _ | ⟨target, rest3⟩
      · rfl
      · rcases rest3 with _ | ⟨zstr, rest4⟩
        · rfl
        · rcases rest4 with _ | _
          · dsimp only
            rcases h other onto target zstr hsp with hz | ho
            · rw [hz]
            · rcases hzz : pyFloat zstr with _ | z
              · rfl
              · dsimp only
                rw [if_pos ho]
          · rfl

theorem stackStep_noop_target_missing {st : List (Str × BoardDef ℚ) × List (Str × Pos)}
    {k other target zstr : Str} {z : ℚ}
    (hsp : splitUnd (k.drop 12) = [other, kwONTO, target, zstr])
    (hz : pyFloat zstr = some z)
    (ht : ¬ (dlookup st.1 (sanitized target)).isSome = true) :
    stackStep st k = st := by
  unfold stackStep
  rw [hsp]
  dsimp only
  rw [hz]
  dsimp only
  rw [if_neg (by simp : ¬ kwONTO ≠ kwONTO), if_pos (Or.inr ht)]

theorem stackFold_bdefs_dkeys :
    ∀ (l : List Str) (st : List (Str × BoardDef ℚ) × List (Str × Pos)),
      dkeys (l.foldl stackStep st).1 = dkeys st.1
  | [], _ => rfl
  | a :: l, st => by
    rw [List.foldl_cons, stackFold_bdefs_dkeys l (stackStep st a), stackStep_bdefs_dkeys]

theorem stackFold_retain_malformed
    (l : List Str) (st : List (Str × BoardDef ℚ) × List (Str × Pos)) (k : Str)
    (hmem : k ∈ dkeys st.2)
    (h : ∀ other onto target zstr, splitUnd (k.drop 12) = [other, onto, target, zstr] →
      pyFloat zstr = none ∨ onto ≠ kwONTO) :
    k ∈ dkeys (l.foldl stackStep st).2 := by
  refine foldl_inv (P := fun s => k ∈ dkeys s.2) (f := stackStep) ?_ l st hmem
  intro st' a hP
  by_cases hak : a = k
  · subst hak
    rw [stackStep_noop_malformed h]
    exact hP
  · rcases stackStep_stks_cases st' a with hc | hc
    · rw [hc]
      exact hP
    · rw [hc]
      exact mem_dkeys_dpop_of_ne (fun he => hak he.symm) hP

theorem stackFold_retain_target_missing
    (l : List Str) (st : List (Str × BoardDef ℚ) × List (Str × Pos))
    (k other target zstr : Str) (z : ℚ)
    (hsp : splitUnd (k.drop 12) = [other, kwONTO, target, zstr])
    (hz : pyFloat zstr = some z)
    (hmem : k ∈ dkeys st.2) (ht : sanitized target ∉ dkeys st.1) :
    k ∈ dkeys (l.foldl stackStep st).2 := by
  have main : k ∈ dkeys (l.foldl stackStep st).2 ∧
      sanitized target ∉ dkeys (l.foldl stackStep st).1 := by
    refine foldl_inv
      (P := fun s => k ∈ dkeys s.2 ∧ sanitized target ∉ dkeys s.1)
      (f := stackStep) ?_ l st ⟨hmem, ht⟩
    intro st' a ⟨h1, h2⟩
    refine ⟨?_, by rw [stackStep_bdefs_dkeys]; exact h2⟩
    by_cases hak : a = k
    · subst hak
      rw [stackStep_noop_target_missing hsp hz (fun hs => h2 (dlookup_isSome_iff.mp hs))]
      exact h1
    · rcases stackStep_stks_cases st' a with hc | hc
      · rw [hc]
        exact h1
      · rw [hc]
        exact mem_dkeys_dpop_of_ne (fun he => hak he.symm) h1
  exact main.1

/-! ## Scan pass instantiated at the empty initial state -/

theorem scanPass_tls_prefixed (ds : List (Str × Pos)) :
    ∀ k ∈ dkeys (scanPass ds).tls, startswith k prefixTL = true :=
  scan_tls_prefixed ds ⟨[], [], [], []⟩ (fun k hk => absurd hk (List.not_mem_nil k))

theorem scanPass_mem_tls {t : Str} {p : Pos} {ds : List (Str × Pos)}
    (hmem : (t, p) ∈ ds) (htl : startswith t prefixTL = true) :
    t ∈ dkeys (scanPass ds).tls :=
  scan_mem_tls ds ⟨[], [], [], []⟩ hmem htl

theorem scanPass_mem_brs {t : Str} {p : Pos} {ds : List (Str × Pos)}
    (hmem : (t, p) ∈ ds) (hbr : startswith t prefixBR = true) :
    t ∈ dkeys (scanPass ds).brs :=
  scan_mem_brs ds ⟨[], [], [], []⟩ hmem hbr

theorem scanPass_mem_stks {t : Str} {p : Pos} {ds : List (Str × Pos)}
    (hmem : (t, p) ∈ ds) (hst : startswith t prefixSTACK = true) :
    t ∈ dkeys (scanPass ds).stks :=
  scan_mem_stks ds ⟨[], [], [], []⟩ hmem hst

theorem scanPass_tls_sub {ds : List (Str × Pos)} {k : Str}
    (h : k ∈ dkeys (scanPass ds).tls) : k ∈ ds.map Prod.fst := by
  rcases scan_tls_sub ds ⟨[], [], [], []⟩ k h with h1 | h1
  · exact absurd h1 (List.not_mem_nil k)
  · exact h1

theorem scanPass_brs_sub {ds : List (Str × Pos)} {k : Str}
    (h : k ∈ dkeys (scanPass ds).brs) : k ∈ ds.map Prod.fst := by
  rcases scan_brs_sub ds ⟨[], [], [], []⟩ k h with h1 | h1
  · exact absurd h1 (List.not_mem_nil k)
  · exact h1

theorem scanPass_ignored (ds : List (Str × Pos)) :
    (scanPass ds).ignored = (ds.filter (fun a => scanRejected a.1)).map Prod.fst :=
  scan_ignored_spec ds ⟨[], [], [], []⟩

/-- `get_boarddefs` written out in terms of its three passes. -/
theorem get_boarddefs_def (ds : List (Str × Pos)) :
    get_boarddefs ds =
      ((stackPass (boardPass (scanPass ds).tls (scanPass ds).brs).1 (scanPass ds).stks).1,
       (scanPass ds).ignored
         ++ dkeys (boardPass (scanPass ds).tls (scanPass ds).brs).2.1
         ++ dkeys (boardPass (scanPass ds).tls (scanPass ds).brs).2.2
         ++ dkeys (stackPass (boardPass (scanPass ds).tls (scanPass ds).brs).1
              (scanPass ds).stks).2) := rfl

/-! ## Parser-level ignored-list lemmas -/

theorem parser_malformed_stack_ignored {ds : List (Str × Pos)} {rest : Str} {p : Pos}
    (hmem : (prefixSTACK ++ rest, p) ∈ ds)
    (hbad : ∀ other onto target zstr, splitUnd rest = [other, onto, target, zstr] →
      pyFloat zstr = none ∨ onto ≠ kwONTO) :
    (prefixSTACK ++ rest) ∈ (get_boarddefs ds).2 := by
  have hscan : (prefixSTACK ++ rest) ∈ dkeys (scanPass ds).stks :=
    scanPass_mem_stks hmem (sw_stack_stack rest)
  have hret : (prefixSTACK ++ rest) ∈
      dkeys (stackPass (boardPass (scanPass ds).tls (scanPass ds).brs).1
        (scanPass ds).stks).2 := by
    unfold stackPass
    refine stackFold_retain_malformed _ _ _ hscan ?_
    rw [drop12_stack]
    exact hbad
  rw [get_boarddefs_def]
  exact List.mem_append_right _ hret

theorem parser_unmatched_tl_ignored {ds : List (Str × Pos)} {n : Str} {p : Pos}
    (hmem : (prefixTL ++ n, p) ∈ ds)
    (hnobr : ∀ q : Pos, (prefixBR ++ n, q) ∉ ds) :
    (prefixTL ++ n) ∈ (get_boarddefs ds).2 := by
  have htl : (prefixTL ++ n) ∈ dkeys (scanPass ds).tls :=
    scanPass_mem_tls hmem (sw_tl_tl n)
  have hbrm : (prefixBR ++ (prefixTL ++ n).drop 9) ∉ dkeys (scanPass ds).brs := by
    rw [drop9_tl]
    intro hin
    obtain ⟨a, ha, hae⟩ := List.mem_map.mp (scanPass_brs_sub hin)
    refine hnobr a.2 ?_
    rw [← hae]
    exact ha
  have hret := boardFold_tl_unmatched (dkeys (scanPass ds).tls)
    ([], (scanPass ds).tls, (scanPass ds).brs) (prefixTL ++ n) htl hbrm
  rw [get_boarddefs_def]
  refine List.mem_append_left _ (List.mem_append_left _ (List.mem_append_right _ ?_))
  exact hret.1

theorem parser_unmatched_br_ignored {ds : List (Str × Pos)} {n : Str} {p : Pos}
    (hmem : (prefixBR ++ n, p) ∈ ds)
    (hnotl : ∀ q : Pos, (prefixTL ++ n, q) ∉ ds) :
    (prefixBR ++ n) ∈ (get_boarddefs ds).2 := by
  have hbr : (prefixBR ++ n) ∈ dkeys (scanPass ds).brs :=
    scanPass_mem_brs hmem (sw_br_br n)
  have hl : ∀ k' ∈ dkeys (scanPass ds).tls,
      startswith k' prefixTL = true ∧ k' ≠ prefixTL ++ n := by
    intro k' hk'
    refine ⟨scanPass_tls_prefixed ds k' hk', ?_⟩
    intro he
    obtain ⟨a, ha, hae⟩ := List.mem_map.mp (scanPass_tls_sub hk')
    refine hnotl a.2 ?_
    rw [← he, ← hae]
    exact ha
  have hret := boardFold_br_unmatched (dkeys (scanPass ds).tls)
    ([], (scanPass ds).tls, (scanPass ds).brs) n hbr hl
  rw [get_boarddefs_def]
  exact List.mem_append_left _ (List.mem_append_right _ hret)

theorem parser_bdefs_dkeys (ds : List (Str × Pos)) :
    dkeys (get_boarddefs ds).1
      = dkeys (boardPass (scanPass ds).tls (scanPass ds).brs).1 := by
  rw [get_boarddefs_def]
  exact stackFold_bdefs_dkeys _ _

theorem parser_stack_target_missing_ignored {ds : List (Str × Pos)}
    {rest other target zstr : Str} {p : Pos} {z : ℚ}
    (hmem : (prefixSTACK ++ rest, p) ∈ ds)
    (hsp : splitUnd rest = [other, kwONTO, target, zstr])
    (hz : pyFloat zstr = some z)
    (ht : dlookup (get_boarddefs ds).1 (sanitized target) = none) :
    (prefixSTACK ++ rest) ∈ (get_boarddefs ds).2 := by
  have hscan : (prefixSTACK ++ rest) ∈ dkeys (scanPass ds).stks :=
    scanPass_mem_stks hmem (sw_stack_stack rest)
  have ht0 : sanitized target ∉ dkeys (boardPass (scanPass ds).tls (scanPass ds).brs).1 := by
    rw [← parser_bdefs_dkeys]
    exact dlookup_eq_none_iff.mp ht
  have hret : (prefixSTACK ++ rest) ∈
      dkeys (stackPass (boardPass (scanPass ds).tls (scanPass ds).brs).1
        (scanPass ds).stks).2 := by
    unfold stackPass
    refine stackFold_retain_target_missing _ _ _ other target zstr z ?_ hz hscan ht0
    rw [drop12_stack]
    exact hsp
  rw [get_boarddefs_def]
  exact List.mem_append_right _ hret

/-! ## Sanitization lemmas -/

theorem sanGo_all_word : ∀ (s : Str) (b : Bool), ∀ c ∈ sanGo s b, isWordChar c = true
  | [], _, c, hc => absurd hc (List.not_mem_nil c)
  | c0 :: cs, b, c, hc => by
    unfold sanGo at hc
    by_cases hw : isWordChar c0 = true
    · rw [if_pos hw] at hc
      rcases List.mem_cons.mp hc with h | h
      · rw [h]
        exact hw
      · exact sanGo_all_word cs false c h
    · rw [if_neg hw] at hc
      by_cases hb : b = true
      · rw [if_pos hb] at hc
        exact sanGo_all_word cs true c hc
      · rw [if_neg hb] at hc
        rcases List.mem_cons.mp hc with h | h
        · rw [h]
          decide
        · exact sanGo_all_word cs true c h

theorem sanGo_id_of_all_word : ∀ (s : Str), (∀ c ∈ s, isWordChar c = true) → sanGo s false = s
  | [], _ => rfl
  | c :: cs, h => by
    unfold sanGo
    rw [if_pos (h c (List.mem_cons_self c cs))]
    rw [sanGo_id_of_all_word cs (fun c' hc' => h c' (List.mem_cons.mpr (Or.inr hc')))]

/-! ## Claim theorems -/

/-- C1 (code bug): the whole-board bounds tuple that `export_pcb3d` packs
into `layers/bounds` keeps the raw bounding box's *bottom* and *right*
coordinates (plus twice the margin) in its last two fields, whereas the
record is specified — and consumed by `export_layers`, which uses field 3 as
the physical SVG width — as (top, left, width, height); on the raw edge box
(top, left, bottom, right) = (0, 10, 50, 100) the code writes
(-1, 9, 52, 102) while the documented record is (-1, 9, 92, 52). -/
theorem c1_layers_bounds_code_bug :
    export_pcb3d_bounds 0 10 50 100 = (-1, 9, 52, 102) ∧
    spec_bounds_record 0 10 50 100 = (-1, 9, 92, 52) ∧
    export_pcb3d_bounds 0 10 50 100 ≠ spec_bounds_record 0 10 50 100 := by
  refine ⟨?_, ?_, ?_⟩ <;> norm_num [export_pcb3d_bounds, spec_bounds_record, SVG_MARGIN]

/-- C2: when the top-left marker `PCB3D_TL_<name>` finds its matching
bottom-right marker `PCB3D_BR_<name>` in the bottom-right bucket, the
board-resolution iteration pops both markers from their buckets and stores,
keyed by the sanitized shared name, a BoardDef whose bounds are the top-left
marker's position followed by the componentwise difference of the
bottom-right and top-left positions. -/
theorem c2_board_pair_resolution
    (bdefs : List (Str × BoardDef ℚ)) (tls brs : List (Str × Pos))
    (n : Str) (p q : Pos)
    (htl : dlookup tls (prefixTL ++ n) = some p)
    (hbr : dlookup brs (prefixBR ++ n) = some q) :
    boardStep (bdefs, tls, brs) (prefixTL ++ n) =
      (dinsert bdefs (sanitized n)
        ⟨sanitized n, (p.1, p.2, q.1 - p.1, q.2 - p.2), []⟩,
       dpop tls (prefixTL ++ n), dpop brs (prefixBR ++ n)) := by
  simp only [boardStep, drop9_tl, htl, hbr]

/-- Witness for C2 at a concrete pair of markers. -/
theorem c2_board_pair_resolution_witness :
    dlookup [(prefixTL ++ strMain, ((1 : ℚ), (2 : ℚ)))] (prefixTL ++ strMain)
        = some (1, 2) ∧
    dlookup [(prefixBR ++ strMain, ((5 : ℚ), (7 : ℚ)))] (prefixBR ++ strMain)
        = some (5, 7) ∧
    boardStep ([], [(prefixTL ++ strMain, (1, 2))], [(prefixBR ++ strMain, (5, 7))])
        (prefixTL ++ strMain) =
      (dinsert [] (sanitized strMain)
        ⟨sanitized strMain, (((1 : ℚ), (2 : ℚ)).1, ((1 : ℚ), (2 : ℚ)).2,
          ((5 : ℚ), (7 : ℚ)).1 - ((1 : ℚ), (2 : ℚ)).1,
          ((5 : ℚ), (7 : ℚ)).2 - ((1 : ℚ), (2 : ℚ)).2), []⟩,
       dpop [(prefixTL ++ strMain, (1, 2))] (prefixTL ++ strMain),
       dpop [(prefixBR ++ strMain, (5, 7))] (prefixBR ++ strMain)) := by
  have htl : dlookup [(prefixTL ++ strMain, ((1 : ℚ), (2 : ℚ)))] (prefixTL ++ strMain)
      = some (1, 2) := by simp [dlookup]
  have hbr : dlookup [(prefixBR ++ strMain, ((5 : ℚ), (7 : ℚ)))] (prefixBR ++ strMain)
      = some (5, 7) := by simp [dlookup]
  exact ⟨htl, hbr, c2_board_pair_resolution [] _ _ strMain (1, 2) (5, 7) htl hbr⟩

/-- C3 counterexample: on the spec's three-annotation scenario, the stack
marker is NOT resolved — `Daughter` names no BoardDef and is not the
reserved `FPNL`, so `Main` carries no StackedBoard `("Daughter", (10,10,5))`
(the marker ends up ignored instead). -/
theorem c3_scenario_counterexample :
    ¬ ∃ bd, dlookup (get_boarddefs c3Input).1 strMain = some bd ∧
        (⟨strDaughter, (10, 10, 5)⟩ : StackedBoard ℚ) ∈ bd.stacked_boards := by
  have hrun : get_boarddefs c3Input
      = ([(strMain, ⟨strMain, (0, 0, 100, 50), []⟩)], [stackMainText]) := by
    simp +decide [get_boarddefs, scanPass, boardPass, stackPass, scanStep, boardStep,
      stackStep, dsetdefault, dlookup, dpop, dinsert, dkeys, startswith, splitUnd, pyFloat,
      pySign, pySignZ, pyExpo, natOfDigits, digitVal, sanitized, sanGo, isWordChar,
      prefixPCB3D, prefixTL, prefixBR, prefixSTACK, kwONTO, FPNL, strMain, strDaughter,
      zFive, stackMainText, c3Input]
  rintro ⟨bd, hbd, hmem⟩
  rw [hrun] at hbd
  rw [show dlookup [(strMain, (⟨strMain, (0, 0, 100, 50), []⟩ : BoardDef ℚ))] strMain
      = some (⟨strMain, (0, 0, 100, 50), []⟩ : BoardDef ℚ) from by simp [dlookup]] at hbd
  cases hbd
  exact absurd hmem (List.not_mem_nil _)

/-- C3 amended: with exactly the three annotations `PCB3D_TL_Main` at (0,0),
`PCB3D_BR_Main` at (100,50) and `PCB3D_STACK_Daughter_ONTO_Main_5.0` at
(10,10), the parser yields only `BoardDef("Main", (0,0,100,50))` with an
empty stacking list, and the stack marker appears in the ignored list,
because `Daughter` resolves to no BoardDef and is not the reserved panel
identifier. -/
theorem c3_scenario_amended :
    get_boarddefs c3Input
      = ([(strMain, ⟨strMain, (0, 0, 100, 50), []⟩)], [stackMainText]) := by
  simp +decide [get_boarddefs, scanPass, boardPass, stackPass, scanStep, boardStep,
    stackStep, dsetdefault, dlookup, dpop, dinsert, dkeys, startswith, splitUnd, pyFloat,
    pySign, pySignZ, pyExpo, natOfDigits, digitVal, sanitized, sanGo, isWordChar,
    prefixPCB3D, prefixTL, prefixBR, prefixSTACK, kwONTO, FPNL, strMain, strDaughter,
    zFive, stackMainText, c3Input]

/-- C7 counterexample: `"hello"` is classified into no bucket (it lacks the
reserved prefix), yet the ignored list of the run is empty — annotations
without the reserved prefix are skipped silently, not reported. -/
theorem c7_ignored_counterexample :
    (startswith strHello prefixTL = false ∧ startswith strHello prefixBR = false
      ∧ startswith strHello prefixSTACK = false) ∧
    (get_boarddefs [(strHello, (0, 0))]).2 = [] := by
  constructor
  · decide
  · simp +decide [get_boarddefs, scanPass, boardPass, stackPass, scanStep, dkeys,
      startswith, prefixPCB3D, strHello]

/-- C7 amended: the ignored list equals the texts that carry the reserved
prefix but none of the three marker prefixes, in scan order, followed by the
leftover keys of the top-left bucket, the bottom-right bucket and the stack
bucket, in that order; texts without the reserved prefix never appear. -/
theorem c7_ignored_amended (ds : List (Str × Pos)) :
    (get_boarddefs ds).2
      = (ds.filter (fun a => scanRejected a.1)).map Prod.fst
        ++ dkeys (boardPass (scanPass ds).tls (scanPass ds).brs).2.1
        ++ dkeys (boardPass (scanPass ds).tls (scanPass ds).brs).2.2
        ++ dkeys (stackPass (boardPass (scanPass ds).tls (scanPass ds).brs).1
             (scanPass ds).stks).2 := by
  rw [get_boarddefs_def, scanPass_ignored]

/-- C8: sanitization replaces every maximal run of non-word characters with
one underscore (witnessed on `"Front Panel!!"`) and is idempotent, since its
output consists of word characters only. -/
theorem c8_sanitized_idempotent :
    (∀ s : Str, sanitized (sanitized s) = sanitized s) ∧
    sanitized ['F', 'r', 'o', 'n', 't', ' ', 'P', 'a', 'n', 'e', 'l', '!', '!']
      = ['F', 'r', 'o', 'n', 't', '_', 'P', 'a', 'n', 'e', 'l', '_'] := by
  constructor
  · intro s
    exact sanGo_id_of_all_word _ (sanGo_all_word s false)
  · decide

/-- C9 counterexample: the text `"PCB3D_X"` (reserved prefix, no marker
prefix) occurring twice is appended to the ignored list once per
occurrence — the later duplicate IS added to the ignored list. -/
theorem c9_duplicate_counterexample :
    (get_boarddefs [(dupText, (0, 0)), (dupText, (1, 1))]).2 = [dupText, dupText] := by
  simp +decide [get_boarddefs, scanPass, boardPass, stackPass, scanStep, dkeys,
    startswith, prefixPCB3D, prefixTL, prefixBR, prefixSTACK, dupText]

/-- C4: a well-formed stack marker (four underscore-separated fields,
keyword `ONTO`, parseable z-offset) is resolved exactly when its sanitized
target names an existing BoardDef and its sanitized other-name names an
existing BoardDef or is the reserved `FPNL`: on acceptance one StackedBoard
is appended to the target's list and the marker is popped; otherwise the
state is unchanged; and a well-formed marker whose sanitized target is
absent from the final mapping always appears in the ignored list. -/
theorem c4_stack_acceptance :
    (∀ (bdefs : List (Str × BoardDef ℚ)) (stks : List (Str × Pos))
       (mk other target zstr : Str) (z : ℚ) (sp : Pos) (tbd : BoardDef ℚ),
       splitUnd (mk.drop 12) = [other, kwONTO, target, zstr] →
       pyFloat zstr = some z →
       dlookup stks mk = some sp →
       dlookup bdefs (sanitized target) = some tbd →
       ((dlookup bdefs (sanitized other)).isSome = true ∨ sanitized other = FPNL) →
       stackStep (bdefs, stks) mk =
         (dinsert bdefs (sanitized target)
           { tbd with stacked_boards := tbd.stacked_boards
               ++ [⟨sanitized other, (sp.1 - tbd.bounds.1, sp.2 - tbd.bounds.2.1, z)⟩] },
          dpop stks mk)) ∧
    (∀ (bdefs : List (Str × BoardDef ℚ)) (stks : List (Str × Pos))
       (mk other target zstr : Str) (z : ℚ),
       splitUnd (mk.drop 12) = [other, kwONTO, target, zstr] →
       pyFloat zstr = some z →
       ¬ (((dlookup bdefs (sanitized other)).isSome = true ∨ sanitized other = FPNL)
           ∧ (dlookup bdefs (sanitized target)).isSome = true) →
       stackStep (bdefs, stks) mk = (bdefs, stks)) ∧
    (∀ (ds : List (Str × Pos)) (rest other target zstr : Str) (p : Pos) (z : ℚ),
       (prefixSTACK ++ rest, p) ∈ ds →
       splitUnd rest = [other, kwONTO, target, zstr] →
       pyFloat zstr = some z →
       dlookup (get_boarddefs ds).1 (sanitized target) = none →
       (prefixSTACK ++ rest) ∈ (get_boarddefs ds).2) := by
  refine ⟨?_, ?_, ?_⟩
  · intro bdefs stks mk other target zstr z sp tbd hsp hz hsk htbd hother
    unfold stackStep
    rw [hsp]
    dsimp only
    rw [hz]
    dsimp only
    rw [if_neg (by simp : ¬ kwONTO ≠ kwONTO)]
    rw [if_neg (show ¬ (¬ ((dlookup bdefs (sanitized other)).isSome = true
        ∨ sanitized other = FPNL)
        ∨ ¬ (dlookup bdefs (sanitized target)).isSome = true) from by
      intro hcon
      rcases hcon with h1 | h1
      · exact h1 hother
      · exact h1 (by rw [htbd]; rfl))]
    rw [hsk, htbd]
  · intro bdefs stks mk other target zstr z hsp hz hrej
    unfold stackStep
    rw [hsp]
    dsimp only
    rw [hz]
    dsimp only
    rw [if_neg (by simp : ¬ kwONTO ≠ kwONTO), if_pos (not_and_or.mp hrej)]
  · intro ds rest other target zstr p z hmem hsp hz ht
    exact parser_stack_target_missing_ignored hmem hsp hz ht

/-- Witness for C4: a marker stacking the reserved `FPNL` onto a resolved
`Main` board is accepted although no `FPNL` BoardDef exists, and a
well-formed marker whose target `B` is never defined ends up ignored. -/
theorem c4_stack_acceptance_witness :
    (stackStep ([(strMain, mainBd)], [(stackFpnlText, ((10 : ℚ), (10 : ℚ)))]) stackFpnlText =
      (dinsert [(strMain, mainBd)] (sanitized strMain)
        { mainBd with stacked_boards := mainBd.stacked_boards
            ++ [⟨sanitized FPNL,
                 (((10 : ℚ), (10 : ℚ)).1 - mainBd.bounds.1,
                  ((10 : ℚ), (10 : ℚ)).2 - mainBd.bounds.2.1, 5)⟩] },
       dpop [(stackFpnlText, ((10 : ℚ), (10 : ℚ)))] stackFpnlText)) ∧
    (prefixSTACK ++ restLoneStack)
      ∈ (get_boarddefs [(prefixSTACK ++ restLoneStack, (0, 0))]).2 := by
  constructor
  · refine c4_stack_acceptance.1 [(strMain, mainBd)] _ stackFpnlText FPNL strMain zFive
      5 (10, 10) mainBd ?_ ?_ ?_ ?_ ?_
    · decide
    · simp +decide [pyFloat, pySign, pySignZ, pyExpo, natOfDigits, digitVal, zFive]
    · simp [dlookup]
    · simp +decide [dlookup, sanitized, sanGo, isWordChar, strMain]
    · exact Or.inr (by decide)
  · refine c4_stack_acceptance.2.2 _ restLoneStack ['A'] ['B'] zFive (0, 0) 5
      (List.mem_singleton_self _) ?_ ?_ ?_
    · decide
    · simp +decide [pyFloat, pySign, pySignZ, pyExpo, natOfDigits, digitVal, zFive]
    · simp +decide [get_boarddefs, scanPass, boardPass, stackPass, scanStep, boardStep,
        stackStep, dsetdefault, dlookup, dpop, dinsert, dkeys, startswith, splitUnd,
        pyFloat, pySign, pySignZ, pyExpo, natOfDigits, digitVal, sanitized, sanGo,
        isWordChar, prefixPCB3D, prefixTL, prefixBR, prefixSTACK, kwONTO, FPNL, zFive,
        restLoneStack]

/-- C6: the parser is total and non-throwing by construction, and every
malformed or unmatched marker surfaces in the ignored list: a stack marker
whose suffix has the wrong field count, a non-parseable z-offset or a
keyword other than `ONTO` is left unconsumed and ignored, as is every
unmatched top-left or bottom-right marker. -/
theorem c6_malformed_ignored :
    (∀ (bdefs : List (Str × BoardDef ℚ)) (stks : List (Str × Pos)) (mk : Str),
       (∀ other onto target zstr, splitUnd (mk.drop 12) = [other, onto, target, zstr] →
         pyFloat zstr = none ∨ onto ≠ kwONTO) →
       stackStep (bdefs, stks) mk = (bdefs, stks)) ∧
    (∀ (ds : List (Str × Pos)) (rest : Str) (p : Pos),
       (prefixSTACK ++ rest, p) ∈ ds →
       (∀ other onto target zstr, splitUnd rest = [other, onto, target, zstr] →
         pyFloat zstr = none ∨ onto ≠ kwONTO) →
       (prefixSTACK ++ rest) ∈ (get_boarddefs ds).2) ∧
    (∀ (ds : List (Str × Pos)) (n : Str) (p : Pos),
       (prefixTL ++ n, p) ∈ ds → (∀ q : Pos, (prefixBR ++ n, q) ∉ ds) →
       (prefixTL ++ n) ∈ (get_boarddefs ds).2) ∧
    (∀ (ds : List (Str × Pos)) (n : Str) (p : Pos),
       (prefixBR ++ n, p) ∈ ds → (∀ q : Pos, (prefixTL ++ n, q) ∉ ds) →
       (prefixBR ++ n) ∈ (get_boarddefs ds).2) :=
  ⟨fun _ _ _ hb => stackStep_noop_malformed hb,
   fun _ _ _ hm hb => parser_malformed_stack_ignored hm hb,
   fun _ _ _ hm hb => parser_unmatched_tl_ignored hm hb,
   fun _ _ _ hm hb => parser_unmatched_br_ignored hm hb⟩

/-- Witness for C6: the spec's malformed marker
`PCB3D_STACK_X_ONTO_Main_notanumber` is ignored, and lone top-left and
bottom-right markers are ignored. -/
theorem c6_malformed_ignored_witness :
    stackStep ([], [(prefixSTACK ++ restNan, ((10 : ℚ), (10 : ℚ)))]) (prefixSTACK ++ restNan)
        = ([], [(prefixSTACK ++ restNan, (10, 10))]) ∧
    (prefixSTACK ++ restNan) ∈ (get_boarddefs c6Input).2 ∧
    (prefixTL ++ strMain) ∈ (get_boarddefs [(prefixTL ++ strMain, ((0 : ℚ), (0 : ℚ)))]).2 ∧
    (prefixBR ++ strMain) ∈ (get_boarddefs [(prefixBR ++ strMain, ((0 : ℚ), (0 : ℚ)))]).2 := by
  refine ⟨c6_malformed_ignored.1 [] _ (prefixSTACK ++ restNan) ?_,
          c6_malformed_ignored.2.1 c6Input restNan (10, 10) (by simp [c6Input]) ?_,
          c6_malformed_ignored.2.2.1 _ strMain (0, 0) (List.mem_singleton_self _) ?_,
          c6_malformed_ignored.2.2.2 _ strMain (0, 0) (List.mem_singleton_self _) ?_⟩
  · intro o onto t z hsp
    rw [drop12_stack] at hsp
    rw [show splitUnd restNan
        = [['X'], kwONTO, strMain, ['n', 'o', 't', 'a', 'n', 'u', 'm', 'b', 'e', 'r']]
      from by decide] at hsp
    cases hsp
    exact Or.inl (by decide)
  · intro o onto t z hsp
    rw [show splitUnd restNan
        = [['X'], kwONTO, strMain, ['n', 'o', 't', 'a', 'n', 'u', 'm', 'b', 'e', 'r']]
      from by decide] at hsp
    cases hsp
    exact Or.inl (by decide)
  · intro q hq
    rw [List.mem_singleton] at hq
    have h2 : prefixBR ++ strMain = prefixTL ++ strMain := congrArg Prod.fst hq
    exact absurd h2 (by decide)
  · intro q hq
    rw [List.mem_singleton] at hq
    have h2 : prefixTL ++ strMain = prefixBR ++ strMain := congrArg Prod.fst hq
    exact absurd h2 (by decide)

/-! ## Archive record round-trip -/

theorem unpackBE32_packBE32 {w : ℕ} (h : w < 2 ^ 32) : unpackBE32 (packBE32 w) = w := by
  simp only [packBE32, unpackBE32]
  have e8 : (2 : ℕ) ^ 8 = 256 := by norm_num
  have e16 : (2 : ℕ) ^ 16 = 65536 := by norm_num
  have e24 : (2 : ℕ) ^ 24 = 16777216 := by norm_num
  have e32 : (2 : ℕ) ^ 32 = 4294967296 := by norm_num
  rw [e8, e16, e24]
  rw [e32] at h
  omega

theorem unpack4_pack4 {b : ℕ × ℕ × ℕ × ℕ}
    (h1 : b.1 < 2 ^ 32) (h2 : b.2.1 < 2 ^ 32) (h3 : b.2.2.1 < 2 ^ 32)
    (h4 : b.2.2.2 < 2 ^ 32) : unpack4 (pack4 b) = b := by
  obtain ⟨x1, x2, x3, x4⟩ := b
  have hr : unpack4 (pack4 (x1, x2, x3, x4))
      = (unpackBE32 (packBE32 x1), unpackBE32 (packBE32 x2),
         unpackBE32 (packBE32 x3), unpackBE32 (packBE32 x4)) := rfl
  rw [hr, unpackBE32_packBE32 h1, unpackBE32_packBE32 h2, unpackBE32_packBE32 h3,
    unpackBE32_packBE32 h4]

theorem unpack3_pack3 {b : ℕ × ℕ × ℕ}
    (h1 : b.1 < 2 ^ 32) (h2 : b.2.1 < 2 ^ 32) (h3 : b.2.2 < 2 ^ 32) :
    unpack3 (pack3 b) = b := by
  obtain ⟨x1, x2, x3⟩ := b
  have hr : unpack3 (pack3 (x1, x2, x3))
      = (unpackBE32 (packBE32 x1), unpackBE32 (packBE32 x2), unpackBE32 (packBE32 x3)) := rfl
  rw [hr, unpackBE32_packBE32 h1, unpackBE32_packBE32 h2, unpackBE32_packBE32 h3]

theorem exportEntries_bounds_mem (wrl : List ℕ) (comps layerSvgs : List (Str × List ℕ))
    (lb : ℕ × ℕ × ℕ × ℕ) (bdefs : List (Str × BoardDef ℕ)) {bd : BoardDef ℕ}
    (h : bd ∈ dvalues bdefs) :
    (BOARDS ++ slash ++ bd.name ++ slash ++ BOUNDS, pack4 bd.bounds)
      ∈ exportEntries wrl comps layerSvgs lb bdefs := by
  unfold exportEntries
  refine List.mem_append_right _ ?_
  exact List.mem_flatten.mpr ⟨_, List.mem_map.mpr ⟨bd, h, rfl⟩, List.mem_cons_self _ _⟩

theorem exportEntries_stacked_mem (wrl : List ℕ) (comps layerSvgs : List (Str × List ℕ))
    (lb : ℕ × ℕ × ℕ × ℕ) (bdefs : List (Str × BoardDef ℕ)) {bd : BoardDef ℕ}
    {sb : StackedBoard ℕ} (h : bd ∈ dvalues bdefs) (hsb : sb ∈ bd.stacked_boards) :
    (BOARDS ++ slash ++ bd.name ++ slash ++ (STACKED ++ sb.name), pack3 sb.offset)
      ∈ exportEntries wrl comps layerSvgs lb bdefs := by
  unfold exportEntries
  refine List.mem_append_right _ ?_
  refine List.mem_flatten.mpr ⟨_, List.mem_map.mpr ⟨bd, h, rfl⟩, ?_⟩
  exact List.mem_cons_of_mem _ (List.mem_map.mpr ⟨sb, hsb, rfl⟩)

/-- C5: for every BoardDef mapping, the archive contains, for each board, a
`boards/<name>/bounds` entry of exactly 16 bytes (4 big-endian 32-bit
fields, no padding) and one `boards/<name>/stacked_<other>` entry of exactly
12 bytes per stacking record, and unpacking each packed record reproduces
the original binary32 values exactly. -/
theorem c5_archive_roundtrip
    (wrl : List ℕ) (comps layerSvgs : List (Str × List ℕ)) (lb : ℕ × ℕ × ℕ × ℕ)
    (bdefs : List (Str × BoardDef ℕ)) :
    ∀ bd ∈ dvalues bdefs,
      ((BOARDS ++ slash ++ bd.name ++ slash ++ BOUNDS, pack4 bd.bounds)
          ∈ exportEntries wrl comps layerSvgs lb bdefs ∧
        (pack4 bd.bounds).length = 16 ∧
        (bd.bounds.1 < 2 ^ 32 → bd.bounds.2.1 < 2 ^ 32 → bd.bounds.2.2.1 < 2 ^ 32 →
          bd.bounds.2.2.2 < 2 ^ 32 → unpack4 (pack4 bd.bounds) = bd.bounds)) ∧
      ∀ sb ∈ bd.stacked_boards,
        (BOARDS ++ slash ++ bd.name ++ slash ++ (STACKED ++ sb.name), pack3 sb.offset)
            ∈ exportEntries wrl comps layerSvgs lb bdefs ∧
          (pack3 sb.offset).length = 12 ∧
          (sb.offset.1 < 2 ^ 32 → sb.offset.2.1 < 2 ^ 32 → sb.offset.2.2 < 2 ^ 32 →
            unpack3 (pack3 sb.offset) = sb.offset) := by
  intro bd hbd
  refine ⟨⟨exportEntries_bounds_mem wrl comps layerSvgs lb bdefs hbd, rfl,
    fun h1 h2 h3 h4 => unpack4_pack4 h1 h2 h3 h4⟩, ?_⟩
  intro sb hsb
  exact ⟨exportEntries_stacked_mem wrl comps layerSvgs lb bdefs hbd hsb, rfl,
    fun h1 h2 h3 => unpack3_pack3 h1 h2 h3⟩

/-- Witness for C5 on a one-board, one-stacking mapping. -/
theorem c5_archive_roundtrip_witness :
    ((BOARDS ++ slash ++ strMain ++ slash ++ BOUNDS,
        pack4 ((1, 2, 3, 4) : ℕ × ℕ × ℕ × ℕ))
      ∈ exportEntries [] [] [] (0, 0, 0, 0)
          [(strMain, ⟨strMain, (1, 2, 3, 4), [⟨FPNL, (5, 6, 7)⟩]⟩)]) ∧
    unpack4 (pack4 ((1, 2, 3, 4) : ℕ × ℕ × ℕ × ℕ)) = (1, 2, 3, 4) ∧
    unpack3 (pack3 ((5, 6, 7) : ℕ × ℕ × ℕ)) = (5, 6, 7) := by
  have h := c5_archive_roundtrip [] [] [] (0, 0, 0, 0)
    [(strMain, ⟨strMain, (1, 2, 3, 4), [⟨FPNL, (5, 6, 7)⟩]⟩)]
    ⟨strMain, (1, 2, 3, 4), [⟨FPNL, (5, 6, 7)⟩]⟩ (by simp [dvalues])
  refine ⟨h.1.1, h.1.2.2 (by norm_num) (by norm_num) (by norm_num) (by norm_num), ?_⟩
  have h2 := h.2 ⟨FPNL, (5, 6, 7)⟩ (List.mem_singleton_self _)
  exact h2.2.2 (by norm_num) (by norm_num) (by norm_num)

theorem get_boarddefs_congr {d1 d2 : List (Str × Pos)} (h : scanPass d1 = scanPass d2) :
    get_boarddefs d1 = get_boarddefs d2 := by
  rw [get_boarddefs_def, get_boarddefs_def, h]

/-- C9 amended: for a text classified into one of the three buckets (it
carries a top-left, bottom-right or stack marker prefix), a later duplicate
occurrence is dropped silently — removing it leaves the parser's entire
result (mapping, stacking lists and ignored list) unchanged, the first
occurrence's position winning.  (For texts with the reserved prefix but no
marker prefix, each occurrence is appended to the ignored list, see the
counterexample.) -/
theorem c9_duplicate_amended
    (xs ys zs : List (Str × Pos)) (t : Str) (p q : Pos)
    (ht : startswith t prefixTL = true ∨ startswith t prefixBR = true
       ∨ startswith t prefixSTACK = true) :
    get_boarddefs (xs ++ (t, p) :: ys ++ (t, q) :: zs)
      = get_boarddefs (xs ++ (t, p) :: ys ++ zs) := by
  have hA : (t, p) ∈ xs ++ (t, p) :: ys :=
    List.mem_append_right _ (List.mem_cons_self _ _)
  have hnoop : scanStep (scanPass (xs ++ (t, p) :: ys)) (t, q)
      = scanPass (xs ++ (t, p) :: ys) := by
    refine scanStep_noop_of_mem ?_
    rcases ht with h | h | h
    · exact Or.inl ⟨h, scanPass_mem_tls hA h⟩
    · exact Or.inr (Or.inl ⟨h, scanPass_mem_brs hA h⟩)
    · exact Or.inr (Or.inr ⟨h, scanPass_mem_stks hA h⟩)
  refine get_boarddefs_congr ?_
  simp only [scanPass, List.foldl_append, List.foldl_cons] at hnoop ⊢
  rw [hnoop]

/-- Witness for C9 on a duplicated top-left marker. -/
theorem c9_duplicate_amended_witness :
    get_boarddefs
        ([] ++ (prefixTL ++ strMain, ((0 : ℚ), (0 : ℚ)))
          :: [] ++ (prefixTL ++ strMain, ((1 : ℚ), (1 : ℚ))) :: [])
      = get_boarddefs ([] ++ (prefixTL ++ strMain, ((0 : ℚ), (0 : ℚ))) :: [] ++ []) :=
  c9_duplicate_amended [] [] [] (prefixTL ++ strMain) (0, 0) (1, 1)
    (Or.inl (sw_tl_tl strMain))

/-- C10: two distinct top-left/bottom-right pairs whose raw names sanitize
to the same identifier yield a single mapping entry holding the
later-resolved pair's BoardDef (the earlier one is silently replaced), and
none of the four consumed markers appears in the ignored list. -/
theorem c10_sanitize_collision
    (s t : Str) (a b c d : Pos) (hst : s ≠ t) (hcol : sanitized s = sanitized t) :
    get_boarddefs
        [(prefixTL ++ s, a), (prefixBR ++ s, b), (prefixTL ++ t, c), (prefixBR ++ t, d)]
      = ([(sanitized t, ⟨sanitized t, (c.1, c.2, d.1 - c.1, d.2 - c.2), []⟩)], []) := by
  have hTLne : ¬ prefixTL ++ s = prefixTL ++ t := fun h => hst (append_inj_right h)
  have hBRne : ¬ prefixBR ++ s = prefixBR ++ t := fun h => hst (append_inj_right h)
  have hTLne' : ¬ prefixTL ++ t = prefixTL ++ s := fun h => hst (append_inj_right h).symm
  have hBRne' : ¬ prefixBR ++ t = prefixBR ++ s := fun h => hst (append_inj_right h).symm
  have hscan : scanPass
        [(prefixTL ++ s, a), (prefixBR ++ s, b), (prefixTL ++ t, c), (prefixBR ++ t, d)]
      = ⟨[(prefixTL ++ s, a), (prefixTL ++ t, c)],
         [(prefixBR ++ s, b), (prefixBR ++ t, d)], [], []⟩ := by
    unfold scanPass
    rw [List.foldl_cons, List.foldl_cons, List.foldl_cons, List.foldl_cons, List.foldl_nil]
    simp [scanStep, dsetdefault, dlookup, sw_tl_pcb3d, sw_tl_tl, sw_br_pcb3d, sw_br_br,
      sw_br_tl, hTLne, hBRne, hTLne', hBRne']
  have hboard : boardPass [(prefixTL ++ s, a), (prefixTL ++ t, c)]
        [(prefixBR ++ s, b), (prefixBR ++ t, d)]
      = ([(sanitized t, ⟨sanitized t, (c.1, c.2, d.1 - c.1, d.2 - c.2), []⟩)], [], []) := by
    unfold boardPass
    rw [show dkeys [(prefixTL ++ s, a), (prefixTL ++ t, c)]
        = [prefixTL ++ s, prefixTL ++ t] from rfl]
    rw [List.foldl_cons, List.foldl_cons, List.foldl_nil]
    simp [boardStep, drop9_tl, dlookup, dinsert, dpop, hTLne, hBRne, hTLne', hBRne', hcol]
  rw [get_boarddefs_def, hscan]
  dsimp only
  rw [hboard]
  dsimp only
  rfl

/-- Witness for C10: `"a b"` and `"a-b"` both sanitize to `"a_b"`. -/
theorem c10_sanitize_collision_witness :
    get_boarddefs
        [(prefixTL ++ ['a', ' ', 'b'], ((0 : ℚ), (0 : ℚ))),
         (prefixBR ++ ['a', ' ', 'b'], ((1 : ℚ), (1 : ℚ))),
         (prefixTL ++ ['a', '-', 'b'], ((2 : ℚ), (3 : ℚ))),
         (prefixBR ++ ['a', '-', 'b'], ((7 : ℚ), (9 : ℚ)))]
      = ([(sanitized ['a', '-', 'b'],
           ⟨sanitized ['a', '-', 'b'],
             (((2 : ℚ), (3 : ℚ)).1, ((2 : ℚ), (3 : ℚ)).2,
              ((7 : ℚ), (9 : ℚ)).1 - ((2 : ℚ), (3 : ℚ)).1,
              ((7 : ℚ), (9 : ℚ)).2 - ((2 : ℚ), (3 : ℚ)).2), []⟩)], []) :=
  c10_sanitize_collision ['a', ' ', 'b'] ['a', '-', 'b'] (0, 0) (1, 1) (2, 3) (7, 9)
    (by decide) (by decide)

end Pcb2Blender
